import Mathlib

/-!
Verification of the AI-Code_Helper repository.

This file gives a shallow embedding of the parts of the repository that the
frozen claims C1 - C10 are about, and proves or refutes each claim.

Embedded modules:
  * `src/utils/terminal_commands.py`  (execute_command, is_safe_command,
    suggest_safe_alternatives)
  * `src/utils/code_utils.py`         (save_code_to_file, extension map)
  * `src/agents/code_agent.py`        (process_request and its branches,
    _install_required_libraries, _execute_terminal_command,
    generate_full_project_workflow)

Modelling conventions:
  * Python strings are Lean `String`s; character-level work happens on
    `String.data` (`List Char`).  Python `str.lower()` is modelled by
    `pyLower` (ASCII case folding, which covers every string the code
    compares against).
  * The hosted LLM is an oracle `LLMQuery → Except String String`; an
    `Except.error` models the model call raising an exception.
  * Subprocess execution is an oracle producing an `ExecOutcome`
    (completed with an exit code / timed out / raised), which
    `execute_command` turns into the result dictionary exactly as the
    source does.
  * Python dictionaries are `PyVal.pdict` association lists.
  * The regex-table based `detect_language` and `extract_imports` of
    `src/utils/code_utils.py` are abstracted as oracle fields of `Env`
    (`detect`, `extractImports`): the claims under verification depend
    only on how their results flow through the callers, never on the
    regex tables themselves.
  * Time stamps (`datetime.now().strftime("%Y%m%d_%H%M%S")`) and the data
    directory are `Env` parameters.
  * Side effects (model calls, saved files, executed commands, written
    files) are returned as an explicit `Effect` trace.
-/

/-- A single quote character (ASCII 39). -/
def apoC : Char := Char.ofNat 39

/-- A single quote as a string. -/
def apoS : String := String.mk [apoC]

/-- A backtick character (ASCII 96). -/
def bt : Char := Char.ofNat 96

/-- A triple backtick fence. -/
def fenceChars : List Char := [bt, bt, bt]

/-- The whitespace set of Python `str.strip` / `str.split` and of the
regex class `\s`, restricted to ASCII. -/
def isWs (c : Char) : Bool :=
  c == ' ' || c == '\t' || c == '\n' || c == '\r' || c == Char.ofNat 11 || c == Char.ofNat 12

/-- A word character in the sense of the regex class `\w` (ASCII). -/
def isWordChar (c : Char) : Bool :=
  c.isAlphanum || c == '_'

/-- `leadsWith n l` is true when the list `n` is an initial segment of `l`;
this models testing a pattern at a fixed position of a string. -/
def leadsWith : List Char → List Char → Bool
  | [], _ => true
  | _ :: _, [] => false
  | a :: as, b :: bs => a == b && leadsWith as bs

/-- `containsSub n l` is true when `n` occurs contiguously somewhere in `l`:
the model of the Python substring test `n in l`. -/
def containsSub (n : List Char) : List Char → Bool
  | [] => leadsWith n []
  | c :: rest => leadsWith n (c :: rest) || containsSub n rest

/-- Python `sub in s` on strings. -/
def containsStr (s sub : String) : Bool :=
  containsSub sub.data s.data

/-- Python `s.startswith(p)`. -/
def startsStr (s p : String) : Bool :=
  leadsWith p.data s.data

/-- Python `str.lower`, ASCII case folding on the character list. -/
def pyLower (s : String) : String :=
  String.mk (s.data.map Char.toLower)

/-- Python `str.strip()` (whitespace from both ends). -/
def pyStrip (s : String) : String :=
  String.mk (((s.data.dropWhile isWs).reverse.dropWhile isWs).reverse)

/-- Everything after the first space: Python `s.split(" ", 1)[1]`
(callers only use it when a space is present). -/
def afterFirstSpace : List Char → List Char
  | [] => []
  | c :: rest => if c == ' ' then rest else afterFirstSpace rest

/-- Python `s.find(needle, start)` returning `none` for -1. -/
def findSubAux (needle : List Char) : List Char → Nat → Option Nat
  | [], i => if needle.isEmpty then some i else Option.none
  | c :: rest, i =>
    if leadsWith needle (c :: rest) then some i else findSubAux needle rest (i + 1)

/-- Python `s.find(needle, start)`. -/
def pyFind (s needle : String) (start : Nat) : Option Nat :=
  findSubAux needle.data (s.data.drop start) start

/-- Python slicing `s[i:j]` for `i ≤ j`. -/
def strSlice (s : String) (i j : Nat) : String :=
  String.mk ((s.data.drop i).take (j - i))

/-- Python slicing `s[i:]`. -/
def strFrom (s : String) (i : Nat) : String :=
  String.mk (s.data.drop i)

/-- Python `s.split("\n")` (keeps empty fields). -/
def splitLinesAux (cur : List Char) : List Char → List String
  | [] => [String.mk cur.reverse]
  | c :: rest =>
    if c == '\n' then String.mk cur.reverse :: splitLinesAux [] rest
    else splitLinesAux (c :: cur) rest

/-- Python `s.split("\n")`. -/
def splitLines (s : String) : List String :=
  splitLinesAux [] s.data

/-- Python `s.split()` with no separator: split on whitespace runs,
dropping empty fields. -/
def pySplitWsAux (cur : List Char) : List Char → List String
  | [] => if cur.isEmpty then [] else [String.mk cur.reverse]
  | c :: rest =>
    if isWs c then
      if cur.isEmpty then pySplitWsAux [] rest
      else String.mk cur.reverse :: pySplitWsAux [] rest
    else pySplitWsAux (c :: cur) rest

/-- Python `s.split()`. -/
def pySplitWs (s : String) : List String :=
  pySplitWsAux [] s.data

/-- The part of `l` before the first occurrence of `needle`:
Python `l.split(needle)[0]`. -/
def takeUntilSub (needle : List Char) : List Char → List Char
  | [] => []
  | c :: rest =>
    if leadsWith needle (c :: rest) then []
    else c :: takeUntilSub needle rest

/-- Python `s.split(needle)[0]` on strings. -/
def splitHead (s needle : String) : String :=
  String.mk (takeUntilSub needle.data s.data)

/-!  ## Model of `shlex.split` (POSIX mode)

`is_safe_command` first tokenizes the command with `shlex.split`; a raised
`ValueError` (unclosed quote, trailing escape character) makes the command
unsafe.  The state machine below reproduces POSIX-mode `shlex` word
splitting: whitespace separates tokens, a backslash escapes the next
character, single quotes are literal regions, double quotes are regions in
which a backslash escapes only `"` and `\`.  `none` models the raised
`ValueError`. -/

/-- The lexer state of the `shlex.split` model. -/
inductive ShState where
  | norm
  | esc
  | squote
  | dquote
  | dqesc
deriving DecidableEq

/-- The `shlex.split` state machine; `cur` is the current token reversed,
`inWord` records whether a token (possibly empty, from quotes) is open. -/
def shlexGo : ShState → List Char → Bool → List Char → Option (List (List Char))
  | ShState.norm, cur, inWord, [] => some (if inWord then [cur.reverse] else [])
  | ShState.esc, _, _, [] => Option.none
  | ShState.squote, _, _, [] => Option.none
  | ShState.dquote, _, _, [] => Option.none
  | ShState.dqesc, _, _, [] => Option.none
  | ShState.norm, cur, inWord, c :: rest =>
    if isWs c then
      if inWord then (shlexGo ShState.norm [] false rest).map (fun ts => cur.reverse :: ts)
      else shlexGo ShState.norm [] false rest
    else if c == '\\' then shlexGo ShState.esc cur true rest
    else if c == apoC then shlexGo ShState.squote cur true rest
    else if c == '"' then shlexGo ShState.dquote cur true rest
    else shlexGo ShState.norm (c :: cur) true rest
  | ShState.esc, cur, _, c :: rest => shlexGo ShState.norm (c :: cur) true rest
  | ShState.squote, cur, _, c :: rest =>
    if c == apoC then shlexGo ShState.norm cur true rest
    else shlexGo ShState.squote (c :: cur) true rest
  | ShState.dquote, cur, _, c :: rest =>
    if c == '"' then shlexGo ShState.norm cur true rest
    else if c == '\\' then shlexGo ShState.dqesc cur true rest
    else shlexGo ShState.dquote (c :: cur) true rest
  | ShState.dqesc, cur, _, c :: rest =>
    if c == '"' || c == '\\' then shlexGo ShState.dquote (c :: cur) true rest
    else shlexGo ShState.dquote (c :: '\\' :: cur) true rest

/-- Model of `shlex.split(command)`; `none` models a raised `ValueError`. -/
def shlexSplit (s : String) : Option (List String) :=
  (shlexGo ShState.norm [] false s.data).map (fun ts => ts.map String.mk)

/-!  ## `src/utils/terminal_commands.py` -/

/-- The `dangerous_commands` list of `is_safe_command`
(src/utils/terminal_commands.py lines 125-129). -/
def dangerous_commands : List String :=
  ["rm", "rmdir", "del", "format", "shutdown", "reboot",
   "sudo", "su", "chown", "chmod", "mkfs", "dd",
   "wget", "curl", ">", ">>", "|"]

/-- `is_safe_command` (src/utils/terminal_commands.py lines 106-137):
tokenization failure is unsafe; otherwise the command is unsafe exactly
when some dangerous substring occurs in the lower-cased command. -/
def is_safe_command (command : String) : Bool :=
  match shlexSplit command with
  | Option.none => false
  | some _ =>
    ! dangerous_commands.any (fun cmd => containsSub cmd.data (pyLower command).data)

/-- The alternatives table of `suggest_safe_alternatives`
(src/utils/terminal_commands.py lines 152-158). -/
def alternativesMap : List (String × List String) :=
  [("rm", ["Use file explorer to delete files", "Use a script with confirmation prompts"]),
   ("rmdir", ["Use file explorer to delete directories", "Create a backup before deleting"]),
   ("sudo", ["Run the command without elevated privileges if possible"]),
   ("format", ["Use a GUI disk management tool instead"]),
   ("dd", ["Use a specialized backup/restore tool with safeguards"])]

/-- `suggest_safe_alternatives` (src/utils/terminal_commands.py lines 139-168). -/
def suggest_safe_alternatives (command : String) : List String :=
  let suggestions := alternativesMap.foldl
    (fun acc p => if containsSub p.1.data (pyLower command).data then acc ++ p.2 else acc) []
  if suggestions.isEmpty then ["Consider reviewing the command manually before execution"]
  else suggestions

/-- Result values of Python functions that return dictionaries / strings. -/
inductive PyVal where
  | str (s : String)
  | int (n : Int)
  | pdict (kvs : List (String × PyVal))
  | pnone

/-- Association-list lookup for `PyVal.pdict`. -/
def lookupKv : List (String × PyVal) → String → Option PyVal
  | [], _ => Option.none
  | (k, v) :: rest, key => if k == key then some v else lookupKv rest key

/-- `d[key]` / `d.get(key)` on a Python dictionary value. -/
def PyVal.get : PyVal → String → Option PyVal
  | PyVal.pdict kvs, k => lookupKv kvs k
  | _, _ => Option.none

/-- `d.get(key, "")` when a string is expected. -/
def getStrD (r : PyVal) (k : String) : String :=
  match r.get k with
  | some (PyVal.str s) => s
  | _ => ""

/-- `d.get(key, 0)` when an integer is expected. -/
def getIntD (r : PyVal) (k : String) : Int :=
  match r.get k with
  | some (PyVal.int n) => n
  | _ => 0

/-- The keys of a Python dictionary value. -/
def PyVal.keys : PyVal → List String
  | PyVal.pdict kvs => kvs.map Prod.fst
  | _ => []

/-- `d.get("status") == "success"` as the source writes it. -/
def statusIs (r : PyVal) (s : String) : Bool :=
  match r.get "status" with
  | some (PyVal.str v) => v == s
  | _ => false

/-- How one `subprocess.run` call can end: normal completion with an exit
code and captured streams, `TimeoutExpired` with its text, or any other
exception with its text. -/
inductive ExecOutcome where
  | completed (returncode : Int) (stdout stderr : String)
  | timedOut (msg : String)
  | raised (msg : String)

/-- `execute_command` (src/utils/terminal_commands.py lines 16-104),
with the subprocess call abstracted as an `ExecOutcome`.  The empty
command returns early; otherwise the outcome is turned into the result
dictionary of the source. -/
def execute_command (command : String) (timeout : Int) (outcome : ExecOutcome) : PyVal :=
  if command == "" then
    PyVal.pdict [("status", PyVal.str "error"),
                 ("stderr", PyVal.str "No command provided"),
                 ("exit_code", PyVal.int 1),
                 ("message", PyVal.str "No command provided")]
  else
    match outcome with
    | ExecOutcome.completed rc out err =>
      if rc == 0 then
        PyVal.pdict [("status", PyVal.str "success"),
                     ("stdout", PyVal.str out),
                     ("stderr", PyVal.str err),
                     ("exit_code", PyVal.int rc),
                     ("message", PyVal.str "Command executed successfully")]
      else
        PyVal.pdict [("status", PyVal.str "error"),
                     ("stdout", PyVal.str out),
                     ("stderr", PyVal.str err),
                     ("exit_code", PyVal.int rc),
                     ("message", PyVal.str ("Command failed with exit code " ++ toString rc ++ ": " ++ err))]
    | ExecOutcome.timedOut emsg =>
      PyVal.pdict [("status", PyVal.str "error"),
                   ("stderr", PyVal.str emsg),
                   ("exit_code", PyVal.int 124),
                   ("message", PyVal.str ("Command execution timed out after " ++ toString timeout ++ " seconds"))]
    | ExecOutcome.raised emsg =>
      PyVal.pdict [("status", PyVal.str "error"),
                   ("stderr", PyVal.str emsg),
                   ("exit_code", PyVal.int 1),
                   ("message", PyVal.str ("Error executing command: " ++ emsg))]

/-- Matching at a fixed position is preserved by mapping a character
function over both pattern and text. -/
theorem leadsWith_map (f : Char → Char) :
    ∀ n l : List Char, leadsWith n l = true → leadsWith (n.map f) (l.map f) = true := by
  intro n
  induction n with
  | nil => intro l _; rfl
  | cons a as ih =>
    intro l h
    cases l with
    | nil => simp [leadsWith] at h
    | cons b bs =>
      simp only [leadsWith, Bool.and_eq_true, beq_iff_eq] at h
      simp only [List.map_cons, leadsWith, Bool.and_eq_true, beq_iff_eq]
      exact ⟨by rw [h.1], ih bs h.2⟩

/-- Substring occurrence is preserved by mapping a character function. -/
theorem containsSub_map (f : Char → Char) (n : List Char) :
    ∀ l : List Char, containsSub n l = true → containsSub (n.map f) (l.map f) = true := by
  intro l
  induction l with
  | nil =>
    intro h
    simp only [containsSub] at h ⊢
    exact leadsWith_map f n [] h
  | cons c rest ih =>
    intro h
    simp only [containsSub, Bool.or_eq_true] at h ⊢
    rcases h with h | h
    · exact Or.inl (leadsWith_map f n (c :: rest) h)
    · exact Or.inr (ih h)

/-!  ## Claim C1 -/

/-- C1: `is_safe_command` returns false iff shell-word tokenization fails
or some fixed dangerous substring occurs in the lower-cased raw command;
and in particular a dangerous substring occurring in any casing forces a
false result. -/
theorem c1_is_safe_command_iff (command : String) :
    (is_safe_command command = false ↔
      shlexSplit command = Option.none ∨
        ∃ d ∈ dangerous_commands, containsSub d.data (pyLower command).data = true) ∧
    (∀ d ∈ dangerous_commands, ∀ v : String, pyLower v = d →
      containsSub v.data command.data = true → is_safe_command command = false) := by
  constructor
  · unfold is_safe_command
    cases h : shlexSplit command with
    | none => simp
    | some ts =>
      simp only [Bool.not_eq_false', List.any_eq_true]
      constructor
      · intro hany
        exact Or.inr hany
      · rintro (hnone | hany)
        · exact absurd hnone (by simp)
        · exact hany
  · intro d hd v hv hsub
    have hmap : containsSub d.data (pyLower command).data = true := by
      have := containsSub_map Char.toLower v.data command.data hsub
      rw [← hv]
      simpa [pyLower] using this
    unfold is_safe_command
    cases h : shlexSplit command with
    | none => rfl
    | some ts =>
      simp only [Bool.not_eq_false', List.any_eq_true]
      exact ⟨d, hd, hmap⟩

/-- Witness for C1 at a concrete dangerous command written in mixed case. -/
theorem c1_witness : is_safe_command "Sudo ls" = false :=
  (c1_is_safe_command_iff "Sudo ls").2 "sudo" (by decide) "Sudo" (by decide) (by decide)

/-!  ## Claim C4 -/

/-- C4: for every result of `execute_command` on a nonempty command:
normal completion gives status success iff the exit code is 0 with both
streams captured; a timeout gives status error with exit code 124 and the
description in stderr; a launch failure gives status error with exit code 1
and the exception text in stderr. -/
theorem c4_execute_command_result (command : String) (t : Int) (outcome : ExecOutcome)
    (hc : command ≠ "") :
    (∀ rc out err, outcome = ExecOutcome.completed rc out err →
      ((execute_command command t outcome).get "status" = some (PyVal.str "success") ↔ rc = 0) ∧
      (rc ≠ 0 → (execute_command command t outcome).get "status" = some (PyVal.str "error")) ∧
      (execute_command command t outcome).get "stdout" = some (PyVal.str out) ∧
      (execute_command command t outcome).get "stderr" = some (PyVal.str err)) ∧
    (∀ m, outcome = ExecOutcome.timedOut m →
      (execute_command command t outcome).get "status" = some (PyVal.str "error") ∧
      (execute_command command t outcome).get "exit_code" = some (PyVal.int 124) ∧
      (execute_command command t outcome).get "stderr" = some (PyVal.str m)) ∧
    (∀ m, outcome = ExecOutcome.raised m →
      (execute_command command t outcome).get "status" = some (PyVal.str "error") ∧
      (execute_command command t outcome).get "exit_code" = some (PyVal.int 1) ∧
      (execute_command command t outcome).get "stderr" = some (PyVal.str m)) := by
  have hc' : (command == "") = false := by
    simpa using hc
  refine ⟨?_, ?_, ?_⟩
  · rintro rc out err rfl
    by_cases hrc : rc = 0
    · subst hrc
      simp [execute_command, hc', PyVal.get, lookupKv]
    · have hrc' : (rc == 0) = false := by simpa using hrc
      simp [execute_command, hc', hrc', PyVal.get, lookupKv, hrc]
  · rintro m rfl
    simp [execute_command, hc', PyVal.get, lookupKv]
  · rintro m rfl
    simp [execute_command, hc', PyVal.get, lookupKv]

/-- Witness for C4 at a concrete command and concrete outcomes. -/
theorem c4_witness :
    (execute_command "echo hi" 60 (ExecOutcome.completed 0 "hi" "")).get "status"
      = some (PyVal.str "success") ∧
    (execute_command "sleep 99" 60 (ExecOutcome.timedOut "timed out")).get "exit_code"
      = some (PyVal.int 124) := by
  constructor
  · exact ((c4_execute_command_result "echo hi" 60 (ExecOutcome.completed 0 "hi" "")
      (by decide)).1 0 "hi" "" rfl).1.mpr rfl
  · exact ((c4_execute_command_result "sleep 99" 60 (ExecOutcome.timedOut "timed out")
      (by decide)).2.1 "timed out" rfl).2.1

/-!  ## Fenced code block extraction

`process_request` extracts code blocks with
`re.findall(r'```(?:\w+)?\s*\n([\s\S]*?)\n```', result)` (and a variant
capturing the tag); `_install_required_libraries` and the project
workflow use `r'```(?:python)?\s*([\s\S]*?)\n```'`,
`r'```python\s*([\s\S]*?)\n```'` and `r'```\s*([\s\S]*?)\n```'`.
The functions below model those regexes: a match anchors at a fence, skips
the optional tag, lets the greedy `\s*` backtrack from the longest
whitespace run, and the lazy body group ends at the first following
`\n` + fence. -/

/-- Scan for the closing `\n` + triple-backtick of the lazy body group;
returns the body and the text after the closing fence. -/
def findClose (acc : List Char) : List Char → Option (List Char × List Char)
  | [] => Option.none
  | c :: rest =>
    if c == '\n' && leadsWith fenceChars rest then some (acc.reverse, rest.drop 3)
    else findClose (c :: acc) rest

/-- Try candidate group-start suffixes in order, taking the first from
which a closing fence is found (models `\s*` backtracking). -/
def tryCands : List (List Char) → Option (List Char × List Char)
  | [] => Option.none
  | c :: cs =>
    match findClose [] c with
    | some r => some r
    | Option.none => tryCands cs

/-- For the patterns requiring a literal `\n` after `\s*`: the group-start
suffixes after each newline of the whitespace run `ws`, leftmost newline
first (callers reverse for greedy order). -/
def nlSplits : List Char → List Char → List (List Char)
  | [], _ => []
  | c :: rest, tail =>
    (if c == '\n' then [rest ++ tail] else []) ++ nlSplits rest tail

/-- For the patterns without a required newline: all suffixes of the
whitespace run prepended to the tail, greediest (shortest remainder)
first. -/
def sufCands : List Char → List Char → List (List Char)
  | [], tail => [tail]
  | c :: rest, tail => sufCands rest tail ++ [c :: (rest ++ tail)]

/-- The four shapes of fence pattern used by the source. -/
inductive FencePat where
  | wordNl
  | optPython
  | reqPython
  | plain
deriving DecidableEq

/-- Try to match one fenced block at the head of `l`; on success returns
`((tag, body), rest after the closing fence)`.  `tag` is the `(\w+)?`
group for `FencePat.wordNl` and `""` otherwise. -/
def matchFence (pat : FencePat) (l : List Char) : Option ((String × List Char) × List Char) :=
  if leadsWith fenceChars l then
    let l0 := l.drop 3
    match pat with
    | FencePat.wordNl =>
      let tag := l0.takeWhile isWordChar
      let l1 := l0.dropWhile isWordChar
      let ws := l1.takeWhile isWs
      let tail := l1.dropWhile isWs
      match tryCands ((nlSplits ws tail).reverse) with
      | some (body, rest) => some ((String.mk tag, body), rest)
      | Option.none => Option.none
    | FencePat.optPython =>
      let l1 := if leadsWith "python".data l0 then l0.drop 6 else l0
      let ws := l1.takeWhile isWs
      let tail := l1.dropWhile isWs
      match tryCands (sufCands ws tail) with
      | some (body, rest) => some (("", body), rest)
      | Option.none => Option.none
    | FencePat.reqPython =>
      if leadsWith "python".data l0 then
        let l1 := l0.drop 6
        let ws := l1.takeWhile isWs
        let tail := l1.dropWhile isWs
        match tryCands (sufCands ws tail) with
        | some (body, rest) => some (("", body), rest)
        | Option.none => Option.none
      else Option.none
    | FencePat.plain =>
      let ws := l0.takeWhile isWs
      let tail := l0.dropWhile isWs
      match tryCands (sufCands ws tail) with
      | some (body, rest) => some (("", body), rest)
      | Option.none => Option.none
  else Option.none

/-- `re.findall` over the text: try a match at each position, emit it and
continue after its end, otherwise advance one character. -/
def findAllAux (pat : FencePat) : Nat → List Char → List (String × List Char)
  | 0, _ => []
  | _ + 1, [] => []
  | fuel + 1, c :: rest =>
    match matchFence pat (c :: rest) with
    | some (g, after) => g :: findAllAux pat fuel after
    | Option.none => findAllAux pat fuel rest

/-- All fenced blocks of `s` for the given pattern, as (tag, body) pairs. -/
def findBlocks (pat : FencePat) (s : String) : List (String × String) :=
  (findAllAux pat s.data.length s.data).map (fun p => (p.1, String.mk p.2))

/-- Bodies only, as used by `re.findall` with a single capture group. -/
def findBodies (pat : FencePat) (s : String) : List String :=
  (findBlocks pat s).map Prod.snd

/-!  ## `src/utils/code_utils.py`: `save_code_to_file` -/

/-- The `extension_map` of `save_code_to_file`
(src/utils/code_utils.py lines 146-164); the identical literal also
appears in the freeform branch of `process_request`
(src/agents/code_agent.py lines 353-371). -/
def extension_map : List (String × String) :=
  [("python", "py"), ("javascript", "js"), ("typescript", "ts"), ("java", "java"),
   ("c", "c"), ("cpp", "cpp"), ("csharp", "cs"), ("php", "php"), ("go", "go"),
   ("ruby", "rb"), ("rust", "rs"), ("kotlin", "kt"), ("swift", "swift"),
   ("html", "html"), ("css", "css"), ("sql", "sql"), ("txt", "txt")]

/-- Association lookup on a string table (`dict.get`). -/
def lookupStr : List (String × String) → String → Option String
  | [], _ => Option.none
  | (k, v) :: rest, key => if k == key then some v else lookupStr rest key

/-- `extension_map.get(language, "txt")`. -/
def extFor (language : String) : String :=
  (lookupStr extension_map language).getD "txt"

/-- Split a reversed basename at its first dot (= last dot of the
basename): helper for `os.path.splitext`. -/
def splitAtFirstDot : List Char → Option (List Char × List Char)
  | [] => Option.none
  | c :: rest =>
    if c == '.' then some ([], rest)
    else (splitAtFirstDot rest).map (fun pr => (c :: pr.1, pr.2))

/-- `os.path.splitext` (POSIX): split off the extension starting at the
last dot of the final path component, unless that component's part before
the dot is all dots. -/
def splitextStr (p : String) : String × String :=
  let rev := p.data.reverse
  let revBase := rev.takeWhile (fun c => !(c == '/'))
  let revDir := rev.drop revBase.length
  match splitAtFirstDot revBase with
  | Option.none => (p, "")
  | some (extRev, rootBaseRev) =>
    if rootBaseRev.any (fun c => !(c == '.')) then
      (String.mk (revDir.reverse ++ rootBaseRev.reverse), String.mk ('.' :: extRev.reverse))
    else (p, "")

/-- The `base_filename` computation of `save_code_to_file`
(src/utils/code_utils.py lines 187-189): lower-case the description, keep
only `\w` and `\s` characters, truncate to 30, replace spaces with
underscores. -/
def descBase (description : String) : String :=
  String.mk ((((pyLower description).data.filter
    (fun c => isWordChar c || isWs c)).take 30).map
    (fun c => if c == ' ' then '_' else c))

/-- The path chosen by `save_code_to_file`
(src/utils/code_utils.py lines 173-195), separated out so that theorems
can speak about the written path directly.  `langUsed` is the language
after the detection fallback. -/
def savePath (dataDir timestamp : String) (langUsed : String)
    (file_path : Option String) (description : Option String) : String :=
  let extension := extFor langUsed
  match file_path with
  | some fp =>
    let pr := splitextStr fp
    let ext := if pr.2 == "" then "." ++ extension else pr.2
    pr.1 ++ "_" ++ timestamp ++ ext
  | Option.none =>
    match description with
    | some d => dataDir ++ "/" ++ descBase d ++ "_" ++ timestamp ++ "." ++ extension
    | Option.none => dataDir ++ "/" ++ "code_" ++ timestamp ++ "." ++ extension

/-- The language `save_code_to_file` ends up using: the declared language
if any, else the detected language, else `"txt"`
(src/utils/code_utils.py lines 140-143). -/
def saveLang (detect : String → Option String) (code : String)
    (language : Option String) : String :=
  match language with
  | some l => l
  | Option.none =>
    match detect code with
    | some l => l
    | Option.none => "txt"

/-- `save_code_to_file` (src/utils/code_utils.py lines 127-215) with the
regex-based `detect_language` abstracted as `detect` and the file write
modelled as succeeding. -/
def save_code_to_file (detect : String → Option String) (dataDir timestamp : String)
    (code : String) (language : Option String) (file_path : Option String)
    (description : Option String) : PyVal :=
  let langUsed := saveLang detect code language
  let _ := code
  PyVal.pdict [("status", PyVal.str "success"),
               ("file_path", PyVal.str (savePath dataDir timestamp langUsed file_path description)),
               ("language", PyVal.str langUsed),
               ("extension", PyVal.str (extFor langUsed))]

/-!  ## Path and extension lemmas for C8 and C9 -/

/-- `takeWhile` passes over a block whose members all satisfy the predicate. -/
theorem takeWhileAppend (p : Char → Bool) :
    ∀ l₁ l₂ : List Char, (∀ c ∈ l₁, p c = true) →
      (l₁ ++ l₂).takeWhile p = l₁ ++ l₂.takeWhile p := by
  intro l₁
  induction l₁ with
  | nil => intro l₂ _; rfl
  | cons a as ih =>
    intro l₂ h
    have ha : p a = true := h a (List.mem_cons_self a as)
    simp [List.takeWhile_cons, ha, ih l₂ (fun c hc => h c (List.mem_cons_of_mem a hc))]

/-- `dropWhile` drops a whole block whose members all satisfy the predicate. -/
theorem dropWhileAppend (p : Char → Bool) :
    ∀ l₁ l₂ : List Char, (∀ c ∈ l₁, p c = true) →
      (l₁ ++ l₂).dropWhile p = l₂.dropWhile p := by
  intro l₁
  induction l₁ with
  | nil => intro l₂ _; rfl
  | cons a as ih =>
    intro l₂ h
    have ha : p a = true := h a (List.mem_cons_self a as)
    simp [List.dropWhile_cons, ha, ih l₂ (fun c hc => h c (List.mem_cons_of_mem a hc))]

/-- Computation of `splitAtFirstDot` when the first block is dot-free. -/
theorem splitAtFirstDot_append (a b : List Char) (ha : ∀ c ∈ a, ¬c = '.') :
    splitAtFirstDot (a ++ '.' :: b) = some (a, b) := by
  induction a with
  | nil => simp [splitAtFirstDot]
  | cons c cs ih =>
    have hc : ¬c = '.' := ha c (List.mem_cons_self c cs)
    have hc' : (c == '.') = false := by simpa using hc
    simp [splitAtFirstDot, hc', ih (fun x hx => ha x (List.mem_cons_of_mem c hx))]

/-- Structure of a successful `splitAtFirstDot`. -/
theorem splitAtFirstDot_spec :
    ∀ l a b : List Char, splitAtFirstDot l = some (a, b) →
      l = a ++ '.' :: b ∧ ∀ c ∈ a, ¬c = '.' := by
  intro l
  induction l with
  | nil => intro a b h; simp [splitAtFirstDot] at h
  | cons c cs ih =>
    intro a b h
    by_cases hc : c = '.'
    · subst hc
      simp [splitAtFirstDot] at h
      obtain ⟨rfl, rfl⟩ := h
      exact ⟨rfl, by simp⟩
    · have hc' : (c == '.') = false := by simpa using hc
      simp only [splitAtFirstDot, hc', Bool.false_eq_true, if_false] at h
      cases hsub : splitAtFirstDot cs with
      | none => rw [hsub] at h; simp at h
      | some pr =>
        rw [hsub] at h
        simp only [Option.map_some', Option.some.injEq, Prod.mk.injEq] at h
        obtain ⟨ha, hb⟩ := h
        obtain ⟨heq, hfree⟩ := ih pr.1 pr.2 (by rw [hsub])
        subst ha
        subst hb
        refine ⟨by simp [heq], ?_⟩
        intro x hx
        rcases List.mem_cons.mp hx with rfl | hx'
        · exact hc
        · exact hfree x hx'

/-- If a property holds of the default and of every table value, it holds
of the looked-up value (`dict.get(key, default)`). -/
theorem lookupStr_getD_prop (P : String → Prop) :
    ∀ kvs : List (String × String), ∀ key d : String,
      P d → (∀ kv ∈ kvs, P kv.2) → P ((lookupStr kvs key).getD d) := by
  intro kvs
  induction kvs with
  | nil => intro key d hd _; exact hd
  | cons kv rest ih =>
    intro key d hd h
    by_cases hk : (kv.1 == key) = true
    · simpa [lookupStr, hk] using h kv (List.mem_cons_self kv rest)
    · have hk' : (kv.1 == key) = false := by simpa using hk
      simpa [lookupStr, hk'] using ih key d hd (fun x hx => h x (List.mem_cons_of_mem kv hx))

/-- Every extension produced by the table is nonempty and free of dots and
slashes. -/
theorem extFor_clean (language : String) :
    extFor language ≠ "" ∧ ∀ c ∈ (extFor language).data, ¬c = '.' ∧ ¬c = '/' := by
  unfold extFor
  exact lookupStr_getD_prop
    (fun s => s ≠ "" ∧ ∀ c ∈ s.data, ¬c = '.' ∧ ¬c = '/')
    extension_map language "txt" (by decide) (by decide)

/-- Dropping as many characters as the `takeWhile` block is `dropWhile`. -/
theorem drop_takeWhile_length (p : Char → Bool) :
    ∀ l : List Char, l.drop (l.takeWhile p).length = l.dropWhile p := by
  intro l
  induction l with
  | nil => rfl
  | cons a as ih =>
    by_cases h : p a = true
    · simp [List.takeWhile_cons, List.dropWhile_cons, h, ih]
    · have h' : p a = false := by simpa using h
      simp [List.takeWhile_cons, List.dropWhile_cons, h']

/-- `os.path.splitext` of a path of the form `A ++ "." ++ E`, where the
candidate extension `E` holds no dot or slash and the final component of
`A` holds some non-dot character, splits exactly at that dot. -/
theorem splitext_last_dot (A E : String)
    (hE : ∀ c ∈ E.data, ¬c = '.' ∧ ¬c = '/')
    (hA : ∃ c ∈ A.data.reverse.takeWhile (fun c => !(c == '/')), ¬c = '.') :
    splitextStr (A ++ "." ++ E) = (A, "." ++ E) := by
  have hdot : (("." : String)).data = ['.'] := rfl
  have hdata : (A ++ "." ++ E).data = A.data ++ '.' :: E.data := by
    simp [String.data_append, hdot]
  have hrev : (A ++ "." ++ E).data.reverse = E.data.reverse ++ '.' :: A.data.reverse := by
    rw [hdata]
    simp
  have hEa : ∀ c ∈ E.data.reverse, (!(c == '/')) = true := by
    intro c hc
    have := (hE c (List.mem_reverse.mp hc)).2
    simpa using this
  have hdotp : (!(('.' : Char) == '/')) = true := by decide
  have htake : (A ++ "." ++ E).data.reverse.takeWhile (fun c => !(c == '/'))
      = E.data.reverse ++ '.' :: A.data.reverse.takeWhile (fun c => !(c == '/')) := by
    rw [hrev, takeWhileAppend _ _ _ hEa]
    simp [List.takeWhile_cons, hdotp]
  have hdrop : (A ++ "." ++ E).data.reverse.dropWhile (fun c => !(c == '/'))
      = A.data.reverse.dropWhile (fun c => !(c == '/')) := by
    rw [hrev, dropWhileAppend _ _ _ hEa]
    simp [List.dropWhile_cons, hdotp]
  have hsplit : splitAtFirstDot (E.data.reverse ++ '.' :: A.data.reverse.takeWhile (fun c => !(c == '/')))
      = some (E.data.reverse, A.data.reverse.takeWhile (fun c => !(c == '/'))) := by
    apply splitAtFirstDot_append
    intro c hc
    exact (hE c (List.mem_reverse.mp hc)).1
  have hany : (A.data.reverse.takeWhile (fun c => !(c == '/'))).any (fun c => !(c == '.')) = true := by
    obtain ⟨c, hc, hcd⟩ := hA
    exact List.any_eq_true.mpr ⟨c, hc, by simpa using hcd⟩
  simp only [splitextStr]
  rw [drop_takeWhile_length, hdrop, htake, hsplit]
  simp only [hany, if_true]
  rw [Prod.mk.injEq]
  constructor
  · show String.mk ((A.data.reverse.dropWhile (fun c => !(c == '/'))).reverse
      ++ (A.data.reverse.takeWhile (fun c => !(c == '/'))).reverse) = A
    rw [← List.reverse_append, List.takeWhile_append_dropWhile, List.reverse_reverse]
  · show String.mk ('.' :: E.data.reverse.reverse) = "." ++ E
    apply String.ext
    simp [String.data_append, hdot]

/-- String append is associative (proved via the character lists). -/
theorem strAppendAssoc (a b c : String) : a ++ (b ++ c) = (a ++ b) ++ c :=
  String.ext (by simp [String.data_append])

/-- The extension returned by `os.path.splitext` is empty or a dot
followed by a dot-free, slash-free remainder. -/
theorem splitext_ext_shape (fp : String) :
    (splitextStr fp).2 = "" ∨
      ∃ e : String, (splitextStr fp).2 = "." ++ e ∧ ∀ c ∈ e.data, ¬c = '.' ∧ ¬c = '/' := by
  simp only [splitextStr]
  cases hs : splitAtFirstDot (fp.data.reverse.takeWhile (fun c => !(c == '/'))) with
  | none => left; rfl
  | some pr =>
    obtain ⟨aRev, bRev⟩ := pr
    by_cases hany : bRev.any (fun c => !(c == '.')) = true
    · right
      obtain ⟨heq, hfree⟩ := splitAtFirstDot_spec _ aRev bRev hs
      refine ⟨String.mk aRev.reverse, ?_, ?_⟩
      · simp only [hany, if_true]
        apply String.ext
        simp [String.data_append]
      · intro c hc
        have hc' : c ∈ aRev := List.mem_reverse.mp hc
        refine ⟨hfree c hc', ?_⟩
        have hmem : c ∈ fp.data.reverse.takeWhile (fun c => !(c == '/')) := by
          rw [heq]
          exact List.mem_append.mpr (Or.inl hc')
        have := List.mem_takeWhile_imp hmem
        simpa using this
    · left
      have hany' : bRev.any (fun c => !(c == '.')) = false := by
        simpa using hany
      simp [hany']

/-- If the part before the timestamp ends in an underscore and the
timestamp holds no dot or slash, the final path component holds a non-dot
character (the underscore). -/
theorem sep_witness (B ts : String) (hts : ∀ c ∈ ts.data, ¬c = '.' ∧ ¬c = '/')
    (hB : ∃ B' : List Char, B.data = B' ++ ['_']) :
    ∃ c ∈ (B ++ ts).data.reverse.takeWhile (fun c => !(c == '/')), ¬c = '.' := by
  obtain ⟨B', hB'⟩ := hB
  have hdata : (B ++ ts).data.reverse = ts.data.reverse ++ '_' :: B'.reverse := by
    rw [String.data_append, hB']
    simp
  have hts' : ∀ c ∈ ts.data.reverse, (!(c == '/')) = true := by
    intro c hc
    simpa using (hts c (List.mem_reverse.mp hc)).2
  rw [hdata, takeWhileAppend _ _ _ hts']
  refine ⟨'_', ?_, by decide⟩
  refine List.mem_append.mpr (Or.inr ?_)
  rw [List.takeWhile_cons]
  simp

/-!  ## Claims C8 and C9 -/

/-- C8 (counterexample): a save with declared language `"javascript"` and
an explicit `.py` file path writes a path whose extension is `.py`, not
the table entry `js` for the declared language; the claim as stated is
false for saves with an explicit `file_path`. -/
theorem c8_counterexample :
    getStrD (save_code_to_file (fun _ => Option.none) "data" "20250101_000000" "x"
        (some "javascript") (some "generated_code.py") Option.none) "file_path"
      = "generated_code_20250101_000000.py" ∧
    (splitextStr "generated_code_20250101_000000.py").2 = ".py" ∧
    extFor "javascript" = "js" ∧ (".py" : String) ≠ "." ++ "js" := by
  refine ⟨by decide, by decide, by decide, by decide⟩

/-- C8 (amended): when no `file_path` is supplied, the written path's
extension is the table entry for the declared-or-detected language (with
`"txt"` for an undetectable language); when a `file_path` with an empty
extension is supplied, the table extension is appended; but a `file_path`
carrying an extension keeps that extension regardless of language. -/
theorem c8_amended (detect : String → Option String) (dataDir ts code : String)
    (language file_path description : Option String)
    (hts : ∀ c ∈ ts.data, ¬c = '.' ∧ ¬c = '/') :
    (save_code_to_file detect dataDir ts code language file_path description).get "file_path"
      = some (PyVal.str (savePath dataDir ts (saveLang detect code language) file_path description)) ∧
    (file_path = Option.none →
      (splitextStr (savePath dataDir ts (saveLang detect code language) file_path description)).2
        = "." ++ extFor (saveLang detect code language)) ∧
    (∀ fp, file_path = some fp → (splitextStr fp).2 = "" →
      (splitextStr (savePath dataDir ts (saveLang detect code language) file_path description)).2
        = "." ++ extFor (saveLang detect code language)) ∧
    (∀ fp, file_path = some fp → (splitextStr fp).2 ≠ "" →
      (splitextStr (savePath dataDir ts (saveLang detect code language) file_path description)).2
        = (splitextStr fp).2) ∧
    (language = Option.none → detect code = Option.none →
      saveLang detect code language = "txt") := by
  refine ⟨rfl, ?_, ?_, ?_, ?_⟩
  · rintro rfl
    cases description with
    | none =>
      simp only [savePath]
      rw [splitext_last_dot _ _ (extFor_clean _).2 ?_]
      apply sep_witness _ _ hts
      exact ⟨(dataDir ++ "/").data ++ ['c', 'o', 'd', 'e'],
        by rw [String.data_append]; rw [show ("code_" : String).data
          = ['c', 'o', 'd', 'e'] ++ ['_'] from rfl]; rw [← List.append_assoc]⟩
    | some d =>
      simp only [savePath]
      rw [splitext_last_dot _ _ (extFor_clean _).2 ?_]
      apply sep_witness _ _ hts
      exact ⟨(dataDir ++ "/" ++ descBase d).data, by rw [String.data_append]⟩
  · rintro fp rfl hfp
    simp only [savePath]
    have hfp' : ((splitextStr fp).2 == "") = true := by simpa using hfp
    rw [hfp']
    simp only [if_true]
    rw [strAppendAssoc]
    rw [splitext_last_dot _ _ (extFor_clean _).2 ?_]
    apply sep_witness _ _ hts
    exact ⟨(splitextStr fp).1.data, by rw [String.data_append]⟩
  · rintro fp rfl hfp
    simp only [savePath]
    have hfp' : ((splitextStr fp).2 == "") = false := by simpa using hfp
    rw [hfp']
    simp only [Bool.false_eq_true, if_false]
    rcases splitext_ext_shape fp with h | ⟨e, he, hclean⟩
    · exact absurd h hfp
    · rw [he, strAppendAssoc]
      rw [splitext_last_dot _ _ hclean ?_]
      apply sep_witness _ _ hts
      exact ⟨(splitextStr fp).1.data, by rw [String.data_append]⟩
  · rintro rfl hdet
    simp [saveLang, hdet]

/-- Witness for C8 (amended) at a concrete undetectable-language save. -/
theorem c8_amended_witness :
    (save_code_to_file (fun _ => Option.none) "data" "20250101_000000" "hello"
        Option.none Option.none Option.none).get "file_path"
      = some (PyVal.str (savePath "data" "20250101_000000"
          (saveLang (fun _ => Option.none) "hello" Option.none) Option.none Option.none)) ∧
    (splitextStr (savePath "data" "20250101_000000"
        (saveLang (fun _ => Option.none) "hello" Option.none) Option.none Option.none)).2
      = "." ++ extFor (saveLang (fun _ => Option.none) "hello" Option.none) ∧
    saveLang (fun _ => Option.none) "hello" Option.none = "txt" := by
  obtain ⟨h1, h2, _, _, h5⟩ := c8_amended (fun _ => Option.none) "data" "20250101_000000"
    "hello" Option.none Option.none Option.none (by decide)
  exact ⟨h1, h2 rfl, h5 rfl rfl⟩

/-- C9 (counterexample): two distinct saves in the same second — here with
the two distinct descriptions "model!" and "model?" — write the very same
path, so save paths are not always distinct. -/
theorem c9_counterexample :
    ("model!" : String) ≠ "model?" ∧
    getStrD (save_code_to_file (fun _ => Option.none) "data" "20250514_120000" "x"
        (some "python") Option.none (some "model!")) "file_path"
      = getStrD (save_code_to_file (fun _ => Option.none) "data" "20250514_120000" "x"
        (some "python") Option.none (some "model?")) "file_path" ∧
    getStrD (save_code_to_file (fun _ => Option.none) "data" "20250514_120000" "x"
        (some "python") Option.none (some "model!")) "file_path"
      = "data/model_20250514_120000.py" := by
  refine ⟨by decide, by decide, by decide⟩

/-!  ## `src/agents/code_agent.py`: the dispatcher `process_request`

The model-facing prompt templates of `src/prompts/code_prompts.py` carry
no logic; a model call is identified by which template it fills and with
which arguments, captured by `LLMQuery`.  The oracle answering a query is
`Env.llm`; `Except.error e` models `self.llm.invoke` raising an exception
whose text is `e`. -/

/-- One model invocation: the template being filled and its arguments. -/
inductive LLMQuery where
  | generate (language task_description additional_context : String)
  | explain (code language : String)
  | review (code language : String)
  | refactor (code language refactoring_goals : String)
  | fixBug (code language bug_description expected_behavior : String)
  | complete (code_snippet language completion_instruction : String)
  | freeform (request : String)
  | requirements (request : String)
  | modelCode (request : String)
  | installLibs (request : String)
deriving DecidableEq

/-- An observable side effect of a dispatch. -/
inductive Effect where
  | llmCall (q : LLMQuery)
  | savedFile (code : String) (language : Option String) (filePath : Option String)
      (savedPath : String)
  | ranCommand (cmd : String)
  | wroteFile (path : String) (content : String)
deriving DecidableEq

/-- The environment of a dispatch: the model oracle, the subprocess
oracles (by command for the dispatcher, by call index for the project
workflow), the abstracted regex-based helpers of
`src/utils/code_utils.py`, the data directory and the timestamp. -/
structure Env where
  llm : LLMQuery → Except String String
  runCmd : String → ExecOutcome
  runCmdAt : Nat → ExecOutcome
  detect : String → Option String
  extractImports : String → String → List String
  dataDir : String
  ts : String

/-- The error dictionary produced by an `except` block that stores the
exception text under `error_message`. -/
def errDict (msg : String) : PyVal :=
  PyVal.pdict [("status", PyVal.str "error"), ("error_message", PyVal.str msg)]

/-- Python's message for reading a local variable before assignment; the
refactor / fix-bug / complete branches of `process_request` read
`extension_map` (assigned only in the freeform branch) and raise this. -/
def unboundExtMapMsg : String :=
  "local variable " ++ apoS ++ "extension_map" ++ apoS ++ " referenced before assignment"

/-- The terminal-command prefixes of `process_request`
(src/agents/code_agent.py line 116). -/
def isTerminalReq (req : String) : Bool :=
  startsStr req "!cmd" || startsStr req "!run" || startsStr req "!terminal"

/-- The library-installation keywords of `process_request`
(src/agents/code_agent.py line 122). -/
def hasLibKeyword (req : String) : Bool :=
  ["kütüphane", "library", "kur", "install", "yükle", "gerekli"].any
    (fun k => containsStr (pyLower req) k)

/-- The generate-code test of `process_request`
(src/agents/code_agent.py line 126). -/
def isGenReq (req : String) : Bool :=
  containsStr (pyLower req) "generate code" || containsStr (pyLower req) "create code"

/-- The candidate languages scanned by the generate branch
(src/agents/code_agent.py line 129). -/
def genLangs : List String :=
  ["python", "javascript", "typescript", "java", "c++", "c#", "go", "rust"]

/-- The language chosen by the generate branch: first candidate occurring
in the lower-cased request, defaulting to python. -/
def genLanguage (req : String) : String :=
  (genLangs.find? (fun l => containsStr (pyLower req) l)).getD "python"

/-- The keyword table of `_detect_language_from_request`
(src/agents/code_agent.py lines 418-434), in insertion order. -/
def requestLanguages : List (String × List String) :=
  [("python", ["python", "py", "django", "flask", "pandas", "numpy"]),
   ("javascript", ["javascript", "js", "node", "express", "react", "angular", "vue"]),
   ("typescript", ["typescript", "ts", "angular", "react", "vue"]),
   ("java", ["java", "spring", "android"]),
   ("c#", ["c#", "csharp", ".net", "dotnet", "asp.net"]),
   ("c++", ["c++", "cpp"]),
   ("go", ["go", "golang"]),
   ("ruby", ["ruby", "rails"]),
   ("php", ["php", "laravel", "symfony"]),
   ("rust", ["rust", "cargo"]),
   ("swift", ["swift", "ios"]),
   ("kotlin", ["kotlin", "android"]),
   ("html", ["html", "web"]),
   ("css", ["css", "style", "stylesheet"]),
   ("sql", ["sql", "database", "query"])]

/-- `_detect_language_from_request` (src/agents/code_agent.py lines 408-443). -/
def detect_language_from_request (req : String) : Option String :=
  (requestLanguages.find? (fun p => p.2.any (fun k => containsStr (pyLower req) k))).map Prod.fst

/-- The command extracted by the terminal branch: everything after the
first space, or empty (src/agents/code_agent.py line 118). -/
def terminalArg (req : String) : String :=
  if containsStr req " " then String.mk (afterFirstSpace req.data) else ""

/-- `_execute_terminal_command` (src/agents/code_agent.py lines 770-818):
reject blank commands, reject unsafe commands with suggestions, otherwise
run the command and wrap the result. -/
def execTerminalCommand (env : Env) (command : String) : PyVal × List Effect :=
  if pyStrip command == "" then
    (PyVal.pdict [("status", PyVal.str "error"),
                  ("error_message", PyVal.str "No command provided")], [])
  else if !(is_safe_command command) then
    let alternatives_text := String.intercalate "\n"
      ((suggest_safe_alternatives command).map (fun alt => "- " ++ alt))
    (PyVal.pdict [("status", PyVal.str "error"),
                  ("error_message", PyVal.str ("The command " ++ apoS ++ command ++ apoS
                    ++ " may be potentially dangerous and has been blocked for safety reasons.")),
                  ("additional_info", PyVal.str ("Suggestions:\n" ++ alternatives_text))], [])
  else
    let r := execute_command command 60 (env.runCmd command)
    if statusIs r "success" then
      (PyVal.pdict [("status", PyVal.str "success"),
                    ("response", PyVal.str ("Command executed successfully:\n\n" ++ "```" ++ "\n"
                      ++ getStrD r "stdout" ++ "\n" ++ "```"))],
       [Effect.ranCommand command])
    else
      (PyVal.pdict [("status", PyVal.str "error"),
                    ("error_message", PyVal.str ("Command execution failed with exit code "
                      ++ toString (getIntD r "exit_code") ++ ":\n\n" ++ "```" ++ "\n"
                      ++ getStrD r "stderr" ++ "\n" ++ "```"))],
       [Effect.ranCommand command])

/-- `_install_required_libraries` (src/agents/code_agent.py lines
956-1015): ask the model for a library list, write it to a requirements
file, run one `pip install -r`, and report success regardless of the pip
exit status; its own `except` converts a raised model call into an error
dictionary. -/
def installRequiredLibraries (env : Env) (req : String) : PyVal × List Effect :=
  match env.llm (LLMQuery.installLibs req) with
  | Except.error e => (errDict e, [Effect.llmCall (LLMQuery.installLibs req)])
  | Except.ok response =>
    let blocks0 := findBodies FencePat.optPython response
    let blocks := if blocks0.isEmpty then findBodies FencePat.plain response else blocks0
    let requirements := match blocks with
      | b :: _ => pyStrip b
      | [] => pyStrip response
    let req_path := env.dataDir ++ "/requirements_" ++ env.ts ++ ".txt"
    let pip_cmd := "pip install -r " ++ req_path
    let result := execute_command pip_cmd 180 (env.runCmd pip_cmd)
    (PyVal.pdict [("status", PyVal.str "success"),
                  ("requirements_path", PyVal.str req_path),
                  ("stdout", PyVal.str (getStrD result "stdout")),
                  ("stderr", PyVal.str (getStrD result "stderr")),
                  ("message", PyVal.str ("Gerekli kütüphaneler tespit edildi ve kuruldu.\n\nKurulan kütüphaneler:\n"
                    ++ requirements))],
     [Effect.llmCall (LLMQuery.installLibs req), Effect.wroteFile req_path requirements,
      Effect.ranCommand pip_cmd])

/-- The first fenced region of the request, as the explain / review /
refactor / fix / complete / analyze branches extract it
(src/agents/code_agent.py lines 164-168): content between the first two
occurrences of a triple backtick, stripped, together with the index of the
closing fence; `none` when the opening or closing fence is missing. -/
def fencedParts (req : String) : Option (String × Nat) :=
  match pyFind req "```" 0 with
  | Option.none => Option.none
  | some i =>
    match pyFind req "```" (i + 3) with
    | Option.none => Option.none
    | some j => some (pyStrip (strSlice req (i + 3) j), j)

/-- The explicit file path chosen by the generate branch
(src/agents/code_agent.py lines 152-154): always a `.py` name, whatever
the chosen language. -/
def genFilePath (env : Env) : String :=
  env.dataDir ++ "/generated_code_" ++ env.ts ++ ".py"

/-- The save performed by the generate branch on the first fenced body `b`
(src/agents/code_agent.py lines 156-160). -/
def genSaveInfo (env : Env) (req b : String) : PyVal :=
  save_code_to_file env.detect env.dataDir env.ts (pyStrip b)
    (some (genLanguage req)) (some (genFilePath env)) Option.none

/-- The generate-code branch (src/agents/code_agent.py lines 126-160):
pick a language, call the model, and save the first fenced block of the
reply under an explicit `generated_code_<ts>.py` path. -/
def generateBranch (env : Env) (req : String) : Except String (String × Option PyVal) × List Effect :=
  let language := genLanguage req
  match env.llm (LLMQuery.generate language req "") with
  | Except.error e => (Except.error e, [Effect.llmCall (LLMQuery.generate language req "")])
  | Except.ok result =>
    match findBodies FencePat.wordNl result with
    | [] => (Except.ok (result, Option.none), [Effect.llmCall (LLMQuery.generate language req "")])
    | b :: _ =>
      let sfi := genSaveInfo env req b
      (Except.ok (result, some sfi),
       [Effect.llmCall (LLMQuery.generate language req ""),
        Effect.savedFile (pyStrip b) (some language) (some (genFilePath env))
          (getStrD sfi "file_path")])

/-- The explain-code branch (src/agents/code_agent.py lines 162-174):
extract the fenced code or prompt for it; never saves a file. -/
def explainBranch (env : Env) (req : String) : Except String (String × Option PyVal) × List Effect :=
  match fencedParts req with
  | Option.none =>
    (Except.ok ("Please provide code within triple backticks (```) for explanation.",
      Option.none), [])
  | some (code, _) =>
    let language := (detect_language_from_request req).getD "python"
    match env.llm (LLMQuery.explain code language) with
    | Except.error e => (Except.error e, [Effect.llmCall (LLMQuery.explain code language)])
    | Except.ok result =>
      (Except.ok (result, Option.none), [Effect.llmCall (LLMQuery.explain code language)])

/-- The review-code branch (src/agents/code_agent.py lines 176-188). -/
def reviewBranch (env : Env) (req : String) : Except String (String × Option PyVal) × List Effect :=
  match fencedParts req with
  | Option.none =>
    (Except.ok ("Please provide code within triple backticks (```) for review.",
      Option.none), [])
  | some (code, _) =>
    let language := (detect_language_from_request req).getD "python"
    match env.llm (LLMQuery.review code language) with
    | Except.error e => (Except.error e, [Effect.llmCall (LLMQuery.review code language)])
    | Except.ok result =>
      (Except.ok (result, Option.none), [Effect.llmCall (LLMQuery.review code language)])

/-- The refactoring goal text of the refactor branch
(src/agents/code_agent.py lines 200-202): everything after the closing
fence, trimmed, with a generic default when empty. -/
def refactorGoals (req : String) (code_end : Nat) : String :=
  let refactoring_part := pyStrip (strFrom req (code_end + 3))
  if refactoring_part == "" then "Improve code quality, readability, and maintainability."
  else refactoring_part

/-- The refactor branch (src/agents/code_agent.py lines 190-226).  When
the reply holds a fenced block the source reads the local `extension_map`
before any assignment to it (it is assigned only in the freeform branch,
line 353), raising `UnboundLocalError`, modelled as `Except.error`. -/
def refactorBranch (env : Env) (req : String) : Except String (String × Option PyVal) × List Effect :=
  match fencedParts req with
  | Option.none =>
    (Except.ok ("Please provide code within triple backticks (```) for refactoring.",
      Option.none), [])
  | some (code, code_end) =>
    let language := (detect_language_from_request req).getD "python"
    let goals := refactorGoals req code_end
    match env.llm (LLMQuery.refactor code language goals) with
    | Except.error e => (Except.error e, [Effect.llmCall (LLMQuery.refactor code language goals)])
    | Except.ok result =>
      match findBodies FencePat.wordNl result with
      | [] => (Except.ok (result, Option.none),
          [Effect.llmCall (LLMQuery.refactor code language goals)])
      | _ :: _ => (Except.error unboundExtMapMsg,
          [Effect.llmCall (LLMQuery.refactor code language goals)])

/-- The bug description of the fix-bug branch
(src/agents/code_agent.py lines 238-240): everything after the closing
fence, trimmed, with a generic default when empty. -/
def fixBugPart (req : String) (code_end : Nat) : String :=
  let bug_part0 := pyStrip (strFrom req (code_end + 3))
  if bug_part0 == "" then "Fix the bug in the code." else bug_part0

/-- The fix-bug branch (src/agents/code_agent.py lines 228-264); same
`extension_map` read before assignment when the reply holds a block. -/
def fixBranch (env : Env) (req : String) : Except String (String × Option PyVal) × List Effect :=
  match fencedParts req with
  | Option.none =>
    (Except.ok ("Please provide code within triple backticks (```) for bug fixing.",
      Option.none), [])
  | some (code, code_end) =>
    let language := (detect_language_from_request req).getD "python"
    let bug_part := fixBugPart req code_end
    match env.llm (LLMQuery.fixBug code language bug_part "The code should work correctly.") with
    | Except.error e =>
      (Except.error e,
       [Effect.llmCall (LLMQuery.fixBug code language bug_part "The code should work correctly.")])
    | Except.ok result =>
      match findBodies FencePat.wordNl result with
      | [] => (Except.ok (result, Option.none),
          [Effect.llmCall (LLMQuery.fixBug code language bug_part "The code should work correctly.")])
      | _ :: _ => (Except.error unboundExtMapMsg,
          [Effect.llmCall (LLMQuery.fixBug code language bug_part "The code should work correctly.")])

/-- The completion instruction of the complete branch
(src/agents/code_agent.py lines 276-278): everything after the closing
fence, trimmed, with a generic default when empty. -/
def completionPart (req : String) (code_end : Nat) : String :=
  let part0 := pyStrip (strFrom req (code_end + 3))
  if part0 == "" then "Complete the code according to best practices." else part0

/-- The complete-code branch (src/agents/code_agent.py lines 266-302);
same `extension_map` read before assignment when the reply holds a block. -/
def completeBranch (env : Env) (req : String) : Except String (String × Option PyVal) × List Effect :=
  match fencedParts req with
  | Option.none =>
    (Except.ok ("Please provide code within triple backticks (```) for completion.",
      Option.none), [])
  | some (code, code_end) =>
    let language := (detect_language_from_request req).getD "python"
    let completion_part := completionPart req code_end
    match env.llm (LLMQuery.complete code language completion_part) with
    | Except.error e =>
      (Except.error e, [Effect.llmCall (LLMQuery.complete code language completion_part)])
    | Except.ok result =>
      match findBodies FencePat.wordNl result with
      | [] => (Except.ok (result, Option.none),
          [Effect.llmCall (LLMQuery.complete code language completion_part)])
      | _ :: _ => (Except.error unboundExtMapMsg,
          [Effect.llmCall (LLMQuery.complete code language completion_part)])

/-- The framework table of `extract_code_metadata`
(src/utils/code_utils.py lines 109-117). -/
def frameworkPatterns : List (String × List String) :=
  [("django", ["django"]), ("flask", ["flask"]), ("react", ["react"]),
   ("angular", ["@angular"]), ("vue", ["vue"]), ("express", ["express"]),
   ("spring", ["org.springframework"])]

/-- The metadata of `extract_code_metadata` (src/utils/code_utils.py
lines 86-125), with the regex helpers abstracted by `Env`. -/
structure Metadata where
  language : Option String
  imports : List String
  frameworks : List String
  line_count : Nat

/-- `extract_code_metadata` (src/utils/code_utils.py lines 86-125). -/
def extract_code_metadata (env : Env) (code : String) : Metadata :=
  let language := env.detect code
  let imports := match language with
    | some l => env.extractImports code l
    | Option.none => []
  let frameworks := (frameworkPatterns.filter (fun fp =>
    fp.2.any (fun pat => imports.any (fun imp => containsStr (pyLower imp) (pyLower pat))))).map
    Prod.fst
  { language := language, imports := imports, frameworks := frameworks,
    line_count := (splitLines code).length }

/-- The report text built by the analyze branch
(src/agents/code_agent.py lines 310-324). -/
def analyzeReport (env : Env) (code : String) : String :=
  let md := extract_code_metadata env code
  "Code Analysis Results:\n\n"
    ++ "Language: " ++ (match md.language with | some l => l | Option.none => "None") ++ "\n"
    ++ "Lines of Code: " ++ toString md.line_count ++ "\n"
    ++ (if !md.imports.isEmpty then
          "\nImports:\n" ++ String.join (md.imports.map (fun imp => "- " ++ imp ++ "\n"))
        else "")
    ++ (if !md.frameworks.isEmpty then
          "\nFrameworks Detected:\n"
            ++ String.join (md.frameworks.map (fun fw => "- " ++ fw ++ "\n"))
        else "")

/-- The analyze branch (src/agents/code_agent.py lines 304-328): builds a
report locally; no model call and no save. -/
def analyzeBranch (env : Env) (req : String) : Except String (String × Option PyVal) × List Effect :=
  match fencedParts req with
  | Option.none =>
    (Except.ok ("Please provide code within triple backticks (```) for analysis.",
      Option.none), [])
  | some (code, _) =>
    (Except.ok (analyzeReport env code, Option.none), [])

/-- The declared language of the first freeform block: its fence tag when
nonempty (src/agents/code_agent.py lines 342-345). -/
def ffLang (tag : String) : Option String :=
  if !(pyStrip tag == "") then some (pyStrip tag) else Option.none

/-- The file path chosen by the freeform branch
(src/agents/code_agent.py lines 372-382): a prefix from the request's
first words, the timestamp, and the extension-table entry for the fence
tag. -/
def ffPath (env : Env) (req tag : String) : String :=
  let ext := match ffLang tag with
    | some l => extFor l
    | Option.none => "txt"
  let request_summary := String.intercalate "_"
    ((((pySplitWs req).take 4).filter (fun w => w.length > 2)).map pyLower)
  let file_prefix := if !(request_summary == "") then "code_" ++ request_summary
    else "unique_code"
  env.dataDir ++ "/" ++ file_prefix ++ "_" ++ env.ts ++ "." ++ ext

/-- The save performed by the freeform branch on the first block
(src/agents/code_agent.py lines 384-388). -/
def ffSaveInfo (env : Env) (req tag body : String) : PyVal :=
  save_code_to_file env.detect env.dataDir env.ts (pyStrip body) (ffLang tag)
    (some (ffPath env req tag)) Option.none

/-- The freeform branch (src/agents/code_agent.py lines 330-388): raw
model call; the first fenced block of the reply, if any, is saved under a
path derived from the block's tag and the request's first words. -/
def freeformBranch (env : Env) (req : String) : Except String (String × Option PyVal) × List Effect :=
  match env.llm (LLMQuery.freeform req) with
  | Except.error e => (Except.error e, [Effect.llmCall (LLMQuery.freeform req)])
  | Except.ok result =>
    match findBlocks FencePat.wordNl result with
    | [] => (Except.ok (result, Option.none), [Effect.llmCall (LLMQuery.freeform req)])
    | (tag, body) :: _ =>
      let sfi := ffSaveInfo env req tag body
      (Except.ok (result, some sfi),
       [Effect.llmCall (LLMQuery.freeform req),
        Effect.savedFile (pyStrip body) (ffLang tag) (some (ffPath env req tag))
          (getStrD sfi "file_path")])

/-- The ordered intent chain of `process_request` after the terminal and
library branches (src/agents/code_agent.py lines 126-388). -/
def mainBranches (env : Env) (req : String) : Except String (String × Option PyVal) × List Effect :=
  let lreq := pyLower req
  if isGenReq req then generateBranch env req
  else if containsStr lreq "explain" && containsStr lreq "code" then explainBranch env req
  else if containsStr lreq "review" && containsStr lreq "code" then reviewBranch env req
  else if containsStr lreq "refactor" then refactorBranch env req
  else if containsStr lreq "fix" && (containsStr lreq "bug" || containsStr lreq "error") then
    fixBranch env req
  else if containsStr lreq "complete" || containsStr lreq "finish" then completeBranch env req
  else if containsStr lreq "analyze" then analyzeBranch env req
  else freeformBranch env req

/-- The common tail of `process_request` (src/agents/code_agent.py lines
390-400): append the saved-path note when a save succeeded and build the
success dictionary. -/
def finishResult (result : String) (sfi : Option PyVal) : PyVal :=
  let result' := match sfi with
    | some s =>
      if statusIs s "success" then
        result ++ "\n\n[Code saved to file: " ++ getStrD s "file_path" ++ "]"
      else result
    | Option.none => result
  PyVal.pdict [("status", PyVal.str "success"),
               ("response", PyVal.str result'),
               ("file_info", sfi.getD PyVal.pnone)]

/-- The body of the `try` of `process_request`
(src/agents/code_agent.py lines 112-400). -/
def processRequestTry (env : Env) (req : String) : Except String PyVal × List Effect :=
  if isTerminalReq req then
    (Except.ok (execTerminalCommand env (terminalArg req)).1,
     (execTerminalCommand env (terminalArg req)).2)
  else if hasLibKeyword req then
    (Except.ok (installRequiredLibraries env req).1, (installRequiredLibraries env req).2)
  else
    match (mainBranches env req).1 with
    | Except.error e => (Except.error e, (mainBranches env req).2)
    | Except.ok rs => (Except.ok (finishResult rs.1 rs.2), (mainBranches env req).2)

/-- `process_request` (src/agents/code_agent.py lines 102-406): the
dispatch chain inside a `try`, with every exception converted to an error
dictionary at line 401. -/
def process_request (env : Env) (req : String) : PyVal × List Effect :=
  match (processRequestTry env req).1 with
  | Except.ok d => (d, (processRequestTry env req).2)
  | Except.error e => (errDict e, (processRequestTry env req).2)

/-!  ## Claim C3 -/

/-- A dispatch result is well formed: status success, or status error with
an `error_message` entry. -/
def statusOk (d : PyVal) : Prop :=
  d.get "status" = some (PyVal.str "success") ∨
    (d.get "status" = some (PyVal.str "error") ∧
      ∃ m, d.get "error_message" = some (PyVal.str m))

/-- Every result of the terminal branch is well formed. -/
theorem execTerminal_statusOk (env : Env) (c : String) :
    statusOk (execTerminalCommand env c).1 := by
  unfold execTerminalCommand statusOk
  split_ifs with hb hsafe
  · simp [PyVal.get, lookupKv]
  · simp [PyVal.get, lookupKv]
  · by_cases hs : statusIs (execute_command c 60 (env.runCmd c)) "success" = true
    · simp [hs, PyVal.get, lookupKv]
    · simp [hs, PyVal.get, lookupKv]

/-- Every result of the library-installation branch is well formed. -/
theorem installLibs_statusOk (env : Env) (req : String) :
    statusOk (installRequiredLibraries env req).1 := by
  unfold installRequiredLibraries statusOk
  cases env.llm (LLMQuery.installLibs req) with
  | error e => simp [errDict, PyVal.get, lookupKv]
  | ok response => simp [PyVal.get, lookupKv]

/-- Every dictionary produced by the common tail is well formed. -/
theorem finishResult_statusOk (result : String) (sfi : Option PyVal) :
    statusOk (finishResult result sfi) := by
  left
  rfl

/-- Every `Except.ok` result of the dispatch body is well formed. -/
theorem processRequestTry_ok_statusOk (env : Env) (req : String) (d : PyVal)
    (h : (processRequestTry env req).1 = Except.ok d) : statusOk d := by
  unfold processRequestTry at h
  by_cases h1 : isTerminalReq req = true
  · rw [if_pos h1] at h
    simp only [Except.ok.injEq] at h
    rw [← h]
    exact execTerminal_statusOk env (terminalArg req)
  · rw [if_neg h1] at h
    by_cases h2 : hasLibKeyword req = true
    · rw [if_pos h2] at h
      simp only [Except.ok.injEq] at h
      rw [← h]
      exact installLibs_statusOk env req
    · rw [if_neg h2] at h
      cases hm : (mainBranches env req).1 with
      | error e => rw [hm] at h; simp at h
      | ok rs =>
        rw [hm] at h
        simp only [Except.ok.injEq] at h
        rw [← h]
        exact finishResult_statusOk rs.1 rs.2

/-- C3: `process_request` never propagates an exception: every result is a
dictionary with status success, or status error carrying an
`error_message` with the exception text. -/
theorem c3_no_exception_escape (env : Env) (req : String) :
    statusOk (process_request env req).1 := by
  cases h : (processRequestTry env req).1 with
  | error e =>
    have hp : (process_request env req).1 = errDict e := by
      simp [process_request, h]
    rw [hp]
    right
    exact ⟨rfl, e, rfl⟩
  | ok d =>
    have hp : (process_request env req).1 = d := by
      simp [process_request, h]
    rw [hp]
    exact processRequestTry_ok_statusOk env req d h

/-!  ## Claim C5 -/

/-- An arbitrary concrete environment used by the witnesses. -/
def testEnv : Env where
  llm := fun _ => Except.ok "done"
  runCmd := fun _ => ExecOutcome.completed 0 "" ""
  runCmdAt := fun _ => ExecOutcome.completed 0 "" ""
  detect := fun _ => Option.none
  extractImports := fun _ _ => []
  dataDir := "data"
  ts := "20250101_000000"

/-- C5: a request routed to the explain branch whose text has no fence, or
an opening fence with no closing fence, yields the prompt-for-input
message, an empty effect trace (in particular no model invocation), and no
saved file. -/
theorem c5_explain_missing_fence (env : Env) (req : String)
    (h1 : isTerminalReq req = false)
    (h2 : hasLibKeyword req = false)
    (h3 : isGenReq req = false)
    (h4 : containsStr (pyLower req) "explain" = true)
    (h5 : containsStr (pyLower req) "code" = true)
    (h6 : pyFind req "```" 0 = Option.none ∨
      ∃ i, pyFind req "```" 0 = some i ∧ pyFind req "```" (i + 3) = Option.none) :
    process_request env req =
      (PyVal.pdict [("status", PyVal.str "success"),
        ("response", PyVal.str "Please provide code within triple backticks (```) for explanation."),
        ("file_info", PyVal.pnone)], []) := by
  have hfence : fencedParts req = Option.none := by
    unfold fencedParts
    rcases h6 with h | ⟨i, hi, hnone⟩
    · rw [h]
    · simp only [hi, hnone]
  have hmain : mainBranches env req =
      (Except.ok ("Please provide code within triple backticks (```) for explanation.",
        Option.none), []) := by
    unfold mainBranches
    rw [h3]
    simp only [if_false, Bool.false_eq_true]
    rw [h4, h5]
    simp only [Bool.and_self, if_true]
    unfold explainBranch
    rw [hfence]
  unfold process_request processRequestTry
  rw [h1, h2]
  simp only [Bool.false_eq_true, if_false]
  rw [hmain]
  rfl

/-- Witness for C5 at a concrete fence-less explain request. -/
theorem c5_witness :
    process_request testEnv "explain my code please" =
      (PyVal.pdict [("status", PyVal.str "success"),
        ("response", PyVal.str "Please provide code within triple backticks (```) for explanation."),
        ("file_info", PyVal.pnone)], []) :=
  c5_explain_missing_fence testEnv "explain my code please"
    (by decide) (by decide) (by decide) (by decide) (by decide) (Or.inl (by decide))

/-!  ## Claim C2 -/

/-- The environment of the C2 counterexample: the model always replies
with a fenced python block. -/
def c2Env : Env :=
  { testEnv with llm := fun _ => Except.ok "```python\nx = 1\n```" }

/-- Reduction of `process_request` to the intent chain when neither the
terminal nor the library branch fires and the chain succeeds. -/
theorem process_request_of_main (env : Env) (req : String)
    (hterm : isTerminalReq req = false) (hlib : hasLibKeyword req = false)
    (r : String) (s : Option PyVal) (tr : List Effect)
    (hm : mainBranches env req = (Except.ok (r, s), tr)) :
    process_request env req = (finishResult r s, tr) := by
  unfold process_request processRequestTry
  rw [hterm, hlib]
  simp only [Bool.false_eq_true, if_false]
  rw [hm]

/-- Reduction of `process_request` to the error dictionary when the chain
raises. -/
theorem process_request_of_main_error (env : Env) (req : String)
    (hterm : isTerminalReq req = false) (hlib : hasLibKeyword req = false)
    (e : String) (tr : List Effect)
    (hm : mainBranches env req = (Except.error e, tr)) :
    process_request env req = (errDict e, tr) := by
  unfold process_request processRequestTry
  rw [hterm, hlib]
  simp only [Bool.false_eq_true, if_false]
  rw [hm]

/-- C2 (counterexample): an explain request whose model reply holds a
fenced block produces a result with no file written, no note appended, and
no save effect — the dispatcher does not invoke the File Writer for the
explain intent, against the claim. -/
theorem c2_counterexample :
    findBodies FencePat.wordNl "```python\nx = 1\n```" = ["x = 1"] ∧
    (process_request c2Env "explain code ```\nprint(1)\n``` now").1.get "file_info"
      = some PyVal.pnone ∧
    getStrD (process_request c2Env "explain code ```\nprint(1)\n``` now").1 "response"
      = "```python\nx = 1\n```" ∧
    (process_request c2Env "explain code ```\nprint(1)\n``` now").2
      = [Effect.llmCall (LLMQuery.explain "print(1)" "python")] := by
  refine ⟨by decide, rfl, by decide, by decide⟩

/-- C2 (amended): only the generate and freeform branches save the first
fenced block of the reply and append the saved-path note; the explain,
review and analyze branches never save even when their reply holds fenced
blocks (analyze also makes no model call); and the refactor, fix-bug and
complete branches with a fenced reply end in the `extension_map`
unbound-local error dictionary. -/
theorem c2_amended (env : Env) (req : String)
    (hterm : isTerminalReq req = false)
    (hlib : hasLibKeyword req = false) :
    (∀ result b bs, isGenReq req = true →
      env.llm (LLMQuery.generate (genLanguage req) req "") = Except.ok result →
      findBodies FencePat.wordNl result = b :: bs →
      (process_request env req).1.get "file_info" = some (genSaveInfo env req b) ∧
      getStrD (process_request env req).1 "response"
        = result ++ "\n\n[Code saved to file: "
            ++ getStrD (genSaveInfo env req b) "file_path" ++ "]" ∧
      Effect.savedFile (pyStrip b) (some (genLanguage req)) (some (genFilePath env))
        (getStrD (genSaveInfo env req b) "file_path") ∈ (process_request env req).2) ∧
    (∀ result tag body rest, isGenReq req = false →
      (containsStr (pyLower req) "explain" && containsStr (pyLower req) "code") = false →
      (containsStr (pyLower req) "review" && containsStr (pyLower req) "code") = false →
      containsStr (pyLower req) "refactor" = false →
      (containsStr (pyLower req) "fix"
        && (containsStr (pyLower req) "bug" || containsStr (pyLower req) "error")) = false →
      (containsStr (pyLower req) "complete" || containsStr (pyLower req) "finish") = false →
      containsStr (pyLower req) "analyze" = false →
      env.llm (LLMQuery.freeform req) = Except.ok result →
      findBlocks FencePat.wordNl result = (tag, body) :: rest →
      (process_request env req).1.get "file_info" = some (ffSaveInfo env req tag body) ∧
      getStrD (process_request env req).1 "response"
        = result ++ "\n\n[Code saved to file: "
            ++ getStrD (ffSaveInfo env req tag body) "file_path" ++ "]" ∧
      Effect.savedFile (pyStrip body) (ffLang tag) (some (ffPath env req tag))
        (getStrD (ffSaveInfo env req tag body) "file_path") ∈ (process_request env req).2) ∧
    (∀ code j result, isGenReq req = false →
      containsStr (pyLower req) "explain" = true →
      containsStr (pyLower req) "code" = true →
      fencedParts req = some (code, j) →
      env.llm (LLMQuery.explain code ((detect_language_from_request req).getD "python"))
        = Except.ok result →
      (process_request env req).1.get "file_info" = some PyVal.pnone ∧
      getStrD (process_request env req).1 "response" = result ∧
      ∀ c l f p, Effect.savedFile c l f p ∉ (process_request env req).2) ∧
    (∀ code j result, isGenReq req = false →
      (containsStr (pyLower req) "explain" && containsStr (pyLower req) "code") = false →
      (containsStr (pyLower req) "review" && containsStr (pyLower req) "code") = false →
      containsStr (pyLower req) "refactor" = true →
      fencedParts req = some (code, j) →
      env.llm (LLMQuery.refactor code ((detect_language_from_request req).getD "python")
        (refactorGoals req j)) = Except.ok result →
      ∀ b bs, findBodies FencePat.wordNl result = b :: bs →
      (process_request env req).1 = errDict unboundExtMapMsg) ∧
    (∀ code j result, isGenReq req = false →
      (containsStr (pyLower req) "explain" && containsStr (pyLower req) "code") = false →
      containsStr (pyLower req) "review" = true →
      containsStr (pyLower req) "code" = true →
      fencedParts req = some (code, j) →
      env.llm (LLMQuery.review code ((detect_language_from_request req).getD "python"))
        = Except.ok result →
      (process_request env req).1.get "file_info" = some PyVal.pnone ∧
      getStrD (process_request env req).1 "response" = result ∧
      ∀ c l f p, Effect.savedFile c l f p ∉ (process_request env req).2) ∧
    (∀ code j, isGenReq req = false →
      (containsStr (pyLower req) "explain" && containsStr (pyLower req) "code") = false →
      (containsStr (pyLower req) "review" && containsStr (pyLower req) "code") = false →
      containsStr (pyLower req) "refactor" = false →
      (containsStr (pyLower req) "fix"
        && (containsStr (pyLower req) "bug" || containsStr (pyLower req) "error")) = false →
      (containsStr (pyLower req) "complete" || containsStr (pyLower req) "finish") = false →
      containsStr (pyLower req) "analyze" = true →
      fencedParts req = some (code, j) →
      (process_request env req).1.get "file_info" = some PyVal.pnone ∧
      getStrD (process_request env req).1 "response" = analyzeReport env code ∧
      (process_request env req).2 = []) ∧
    (∀ code j result, isGenReq req = false →
      (containsStr (pyLower req) "explain" && containsStr (pyLower req) "code") = false →
      (containsStr (pyLower req) "review" && containsStr (pyLower req) "code") = false →
      containsStr (pyLower req) "refactor" = false →
      (containsStr (pyLower req) "fix"
        && (containsStr (pyLower req) "bug" || containsStr (pyLower req) "error")) = true →
      fencedParts req = some (code, j) →
      env.llm (LLMQuery.fixBug code ((detect_language_from_request req).getD "python")
        (fixBugPart req j) "The code should work correctly.") = Except.ok result →
      ∀ b bs, findBodies FencePat.wordNl result = b :: bs →
      (process_request env req).1 = errDict unboundExtMapMsg) ∧
    (∀ code j result, isGenReq req = false →
      (containsStr (pyLower req) "explain" && containsStr (pyLower req) "code") = false →
      (containsStr (pyLower req) "review" && containsStr (pyLower req) "code") = false →
      containsStr (pyLower req) "refactor" = false →
      (containsStr (pyLower req) "fix"
        && (containsStr (pyLower req) "bug" || containsStr (pyLower req) "error")) = false →
      (containsStr (pyLower req) "complete" || containsStr (pyLower req) "finish") = true →
      fencedParts req = some (code, j) →
      env.llm (LLMQuery.complete code ((detect_language_from_request req).getD "python")
        (completionPart req j)) = Except.ok result →
      ∀ b bs, findBodies FencePat.wordNl result = b :: bs →
      (process_request env req).1 = errDict unboundExtMapMsg) := by
  refine ⟨?_, ?_, ?_, ?_, ?_, ?_, ?_, ?_⟩
  · intro result b bs hgen hllm hblocks
    have hm : mainBranches env req =
        (Except.ok (result, some (genSaveInfo env req b)),
         [Effect.llmCall (LLMQuery.generate (genLanguage req) req ""),
          Effect.savedFile (pyStrip b) (some (genLanguage req)) (some (genFilePath env))
            (getStrD (genSaveInfo env req b) "file_path")]) := by
      simp only [mainBranches, generateBranch, hgen, hllm, hblocks, if_true]
    have hp := process_request_of_main env req hterm hlib _ _ _ hm
    rw [hp]
    refine ⟨?_, ?_, ?_⟩
    · simp [finishResult, PyVal.get, lookupKv]
    · simp [finishResult, getStrD, PyVal.get, lookupKv, genSaveInfo, save_code_to_file, statusIs]
    · simp
  · intro result tag body rest hgen hexp hrev href hfix hcom hana hllm hblocks
    have hm : mainBranches env req =
        (Except.ok (result, some (ffSaveInfo env req tag body)),
         [Effect.llmCall (LLMQuery.freeform req),
          Effect.savedFile (pyStrip body) (ffLang tag) (some (ffPath env req tag))
            (getStrD (ffSaveInfo env req tag body) "file_path")]) := by
      simp only [mainBranches, freeformBranch, hgen, hexp, hrev, href, hfix, hcom, hana,
        hllm, hblocks, Bool.false_eq_true, if_false]
    have hp := process_request_of_main env req hterm hlib _ _ _ hm
    rw [hp]
    refine ⟨?_, ?_, ?_⟩
    · simp [finishResult, PyVal.get, lookupKv]
    · simp [finishResult, getStrD, PyVal.get, lookupKv, ffSaveInfo, save_code_to_file, statusIs]
    · simp
  · intro code j result hgen hexp hcode hfence hllm
    have hm : mainBranches env req =
        (Except.ok (result, Option.none),
         [Effect.llmCall (LLMQuery.explain code
            ((detect_language_from_request req).getD "python"))]) := by
      simp only [mainBranches, explainBranch, hgen, hexp, hcode, hfence, hllm,
        Bool.false_eq_true, if_false, Bool.and_self, if_true]
    have hp := process_request_of_main env req hterm hlib _ _ _ hm
    rw [hp]
    refine ⟨?_, ?_, ?_⟩
    · simp [finishResult, PyVal.get, lookupKv]
    · simp [finishResult, getStrD, PyVal.get, lookupKv]
    · intro c l f p
      simp [finishResult]
  · intro code j result hgen hexp hrev href hfence hllm b bs hblocks
    have hm : mainBranches env req =
        (Except.error unboundExtMapMsg,
         [Effect.llmCall (LLMQuery.refactor code
            ((detect_language_from_request req).getD "python") (refactorGoals req j))]) := by
      simp only [mainBranches, refactorBranch, hgen, hexp, hrev, href, hfence, hllm, hblocks,
        Bool.false_eq_true, if_false, if_true]
    have hp := process_request_of_main_error env req hterm hlib _ _ hm
    rw [hp]
  · intro code j result hgen hexp hrev hcode hfence hllm
    have he : containsStr (pyLower req) "explain" = false := by
      have h := hexp
      rw [hcode] at h
      simpa using h
    have hm : mainBranches env req =
        (Except.ok (result, Option.none),
         [Effect.llmCall (LLMQuery.review code
            ((detect_language_from_request req).getD "python"))]) := by
      simp only [mainBranches, reviewBranch, hgen, he, hrev, hcode, hfence, hllm,
        Bool.false_eq_true, Bool.false_and, Bool.and_self, if_false, if_true]
    have hp := process_request_of_main env req hterm hlib _ _ _ hm
    rw [hp]
    refine ⟨?_, ?_, ?_⟩
    · simp [finishResult, PyVal.get, lookupKv]
    · simp [finishResult, getStrD, PyVal.get, lookupKv]
    · intro c l f p
      simp [finishResult]
  · intro code j hgen hexp hrev href hfix hcom hana hfence
    have hm : mainBranches env req =
        (Except.ok (analyzeReport env code, Option.none), []) := by
      simp only [mainBranches, analyzeBranch, hgen, hexp, hrev, href, hfix, hcom, hana, hfence,
        Bool.false_eq_true, if_false, if_true]
    have hp := process_request_of_main env req hterm hlib _ _ _ hm
    rw [hp]
    refine ⟨?_, ?_, ?_⟩
    · simp [finishResult, PyVal.get, lookupKv]
    · simp [finishResult, getStrD, PyVal.get, lookupKv]
    · rfl
  · intro code j result hgen hexp hrev href hfix hfence hllm b bs hblocks
    have hm : mainBranches env req =
        (Except.error unboundExtMapMsg,
         [Effect.llmCall (LLMQuery.fixBug code
            ((detect_language_from_request req).getD "python") (fixBugPart req j)
            "The code should work correctly.")]) := by
      simp only [mainBranches, fixBranch, hgen, hexp, hrev, href, hfix, hfence, hllm, hblocks,
        Bool.false_eq_true, if_false, if_true]
    have hp := process_request_of_main_error env req hterm hlib _ _ hm
    rw [hp]
  · intro code j result hgen hexp hrev href hfix hcom hfence hllm b bs hblocks
    have hm : mainBranches env req =
        (Except.error unboundExtMapMsg,
         [Effect.llmCall (LLMQuery.complete code
            ((detect_language_from_request req).getD "python") (completionPart req j))]) := by
      simp only [mainBranches, completeBranch, hgen, hexp, hrev, href, hfix, hcom, hfence,
        hllm, hblocks, Bool.false_eq_true, if_false, if_true]
    have hp := process_request_of_main_error env req hterm hlib _ _ hm
    rw [hp]

/-- The environment of the C2 witness: a generate query is answered with a
fenced python block. -/
def c2WitnessEnv : Env :=
  { testEnv with llm := fun q =>
      match q with
      | LLMQuery.generate _ _ _ => Except.ok "```python\nz = 2\n```"
      | _ => Except.ok "" }

/-- Witness for C2 (amended) at a concrete generate request. -/
theorem c2_witness :
    (process_request c2WitnessEnv "generate code for a calculator").1.get "file_info"
      = some (genSaveInfo c2WitnessEnv "generate code for a calculator" "z = 2") ∧
    getStrD (process_request c2WitnessEnv "generate code for a calculator").1 "response"
      = "```python\nz = 2\n```" ++ "\n\n[Code saved to file: "
          ++ getStrD (genSaveInfo c2WitnessEnv "generate code for a calculator" "z = 2")
              "file_path" ++ "]" ∧
    Effect.savedFile (pyStrip "z = 2") (some (genLanguage "generate code for a calculator"))
        (some (genFilePath c2WitnessEnv))
        (getStrD (genSaveInfo c2WitnessEnv "generate code for a calculator" "z = 2") "file_path")
      ∈ (process_request c2WitnessEnv "generate code for a calculator").2 :=
  (c2_amended c2WitnessEnv "generate code for a calculator" (by decide) (by decide)).1
    "```python\nz = 2\n```" "z = 2" [] (by decide) rfl (by decide)

/-!  ## `generate_full_project_workflow`: requirements sanitization (C7) -/

/-- The install-phrase filter of the sanitization step
(src/agents/code_agent.py line 864). -/
def installPhrases : List String :=
  ["pip install", "!pip", "install"]

/-- One line of the sanitization loop (src/agents/code_agent.py lines
861-870): strip, drop empty lines and lines with install phrasing, cut
the version specifier, rename sklearn. -/
def sanitizeLine (line : String) : Option String :=
  let l := pyStrip line
  if !(l == "") && !(installPhrases.any (fun cmd => containsStr (pyLower l) cmd)) then
    let package := pyStrip (splitHead (splitHead (splitHead l "==") ">=") "<=")
    some (if package == "sklearn" then "scikit-learn" else package)
  else Option.none

/-- First-seen-order deduplication with an explicit seen set
(src/agents/code_agent.py lines 872-874). -/
def dedupFirst : List String → List String → List String
  | _, [] => []
  | seen, x :: xs =>
    if x ∈ seen then dedupFirst seen xs else x :: dedupFirst (x :: seen) xs

/-- The full sanitization of the raw dependency lines
(src/agents/code_agent.py lines 858-874). -/
def validRequirements (ls : List String) : List String :=
  dedupFirst [] (ls.filterMap sanitizeLine)

/-- Matching is preserved by extending the text to the right. -/
theorem leadsWith_append_right :
    ∀ n l t : List Char, leadsWith n l = true → leadsWith n (l ++ t) = true := by
  intro n
  induction n with
  | nil => intro l t _; rfl
  | cons a as ih =>
    intro l t h
    cases l with
    | nil => simp [leadsWith] at h
    | cons b bs =>
      simp only [leadsWith, Bool.and_eq_true] at h
      simp only [List.cons_append, leadsWith, Bool.and_eq_true]
      exact ⟨h.1, ih bs t h.2⟩

/-- The empty pattern occurs in every text. -/
theorem containsSub_nil_left : ∀ l : List Char, containsSub [] l = true := by
  intro l
  cases l with
  | nil => rfl
  | cons c rest => simp [containsSub, leadsWith]

/-- Occurrence is preserved by prepending text. -/
theorem containsSub_append_left (n : List Char) :
    ∀ a x : List Char, containsSub n x = true → containsSub n (a ++ x) = true := by
  intro a
  induction a with
  | nil => intro x h; exact h
  | cons c cs ih =>
    intro x h
    simp only [List.cons_append, containsSub, Bool.or_eq_true]
    exact Or.inr (ih x h)

/-- Occurrence is preserved by appending text. -/
theorem containsSub_append_right (n : List Char) :
    ∀ b c : List Char, containsSub n b = true → containsSub n (b ++ c) = true := by
  intro b
  induction b with
  | nil =>
    intro c h
    have hn : n = [] := by
      cases n with
      | nil => rfl
      | cons a as => simp [containsSub, leadsWith] at h
    rw [hn]
    exact containsSub_nil_left _
  | cons x xs ih =>
    intro c h
    simp only [containsSub, Bool.or_eq_true] at h
    simp only [List.cons_append, containsSub, Bool.or_eq_true]
    rcases h with h | h
    · exact Or.inl (by simpa using leadsWith_append_right n (x :: xs) c h)
    · exact Or.inr (ih c h)

/-- Occurrence in a contiguous part gives occurrence in the whole. -/
theorem containsSub_of_part (n m l : List Char) (a b : List Char)
    (hl : l = a ++ m ++ b) (hm : containsSub n m = true) : containsSub n l = true := by
  subst hl
  rw [List.append_assoc]
  exact containsSub_append_left n a _
    (containsSub_append_right n m b hm)

/-- `takeUntilSub` yields an initial segment of its input. -/
theorem takeUntilSub_part (n : List Char) :
    ∀ l : List Char, ∃ t, l = takeUntilSub n l ++ t := by
  intro l
  induction l with
  | nil => exact ⟨[], rfl⟩
  | cons c rest ih =>
    by_cases h : leadsWith n (c :: rest) = true
    · exact ⟨c :: rest, by simp [takeUntilSub, h]⟩
    · have h' : leadsWith n (c :: rest) = false := by simpa using h
      obtain ⟨t, ht⟩ := ih
      exact ⟨t, by simpa [takeUntilSub, h'] using congrArg (c :: ·) ht⟩

/-- The part before the first occurrence holds no occurrence. -/
theorem containsSub_takeUntilSub (n : List Char) (hn : n ≠ []) :
    ∀ l : List Char, containsSub n (takeUntilSub n l) = false := by
  have hnil : containsSub n [] = false := by
    cases n with
    | nil => exact absurd rfl hn
    | cons a as => simp [containsSub, leadsWith]
  intro l
  induction l with
  | nil => exact hnil
  | cons c rest ih =>
    by_cases h : leadsWith n (c :: rest) = true
    · simpa [takeUntilSub, h] using hnil
    · have h' : leadsWith n (c :: rest) = false := by simpa using h
      simp only [takeUntilSub, h', Bool.false_eq_true, if_false]
      simp only [containsSub, Bool.or_eq_true, not_or, ← Bool.not_eq_true]
      constructor
      · intro hlw
        obtain ⟨t, ht⟩ := takeUntilSub_part n rest
        have hx : leadsWith n (c :: rest) = true := by
          rw [ht]
          exact leadsWith_append_right n (c :: takeUntilSub n rest) t hlw
        rw [hx] at h'
        exact absurd h' (by simp)
      · rw [ih]
        simp

/-- `pyStrip` yields a contiguous part of the string. -/
theorem pyStrip_part (s : String) :
    ∃ a b, s.data = a ++ (pyStrip s).data ++ b := by
  refine ⟨s.data.takeWhile isWs,
    ((s.data.dropWhile isWs).reverse.takeWhile isWs).reverse, ?_⟩
  have h1 : s.data = s.data.takeWhile isWs ++ s.data.dropWhile isWs :=
    (List.takeWhile_append_dropWhile _ _).symm
  have h2 : s.data.dropWhile isWs
      = ((s.data.dropWhile isWs).reverse.dropWhile isWs).reverse
        ++ ((s.data.dropWhile isWs).reverse.takeWhile isWs).reverse := by
    conv_lhs => rw [← List.reverse_reverse (s.data.dropWhile isWs)]
    rw [show (s.data.dropWhile isWs).reverse
        = (s.data.dropWhile isWs).reverse.takeWhile isWs
          ++ (s.data.dropWhile isWs).reverse.dropWhile isWs
      from (List.takeWhile_append_dropWhile _ _).symm]
    rw [List.reverse_append]
    simp
  calc s.data = s.data.takeWhile isWs ++ s.data.dropWhile isWs := h1
    _ = s.data.takeWhile isWs
        ++ (((s.data.dropWhile isWs).reverse.dropWhile isWs).reverse
          ++ ((s.data.dropWhile isWs).reverse.takeWhile isWs).reverse) := by rw [← h2]
    _ = _ := by
      simp only [pyStrip]
      rw [List.append_assoc]

/-- Members of the deduplicated list avoid the seen set. -/
theorem dedupFirst_not_seen :
    ∀ (l seen : List String), ∀ x ∈ dedupFirst seen l, x ∉ seen := by
  intro l
  induction l with
  | nil => intro seen x hx; simp [dedupFirst] at hx
  | cons y ys ih =>
    intro seen x hx
    by_cases hy : y ∈ seen
    · exact ih seen x (by simpa [dedupFirst, hy] using hx)
    · simp only [dedupFirst, hy, if_false] at hx
      rcases List.mem_cons.mp hx with rfl | hx'
      · exact hy
      · intro hxs
        exact ih (y :: seen) x hx' (List.mem_cons_of_mem y hxs)

/-- The deduplicated list has no duplicates. -/
theorem dedupFirst_nodup : ∀ (l seen : List String), (dedupFirst seen l).Nodup := by
  intro l
  induction l with
  | nil => intro seen; simp [dedupFirst]
  | cons y ys ih =>
    intro seen
    by_cases hy : y ∈ seen
    · simpa [dedupFirst, hy] using ih seen
    · simp only [dedupFirst, hy, if_false]
      refine List.nodup_cons.mpr ⟨?_, ih (y :: seen)⟩
      intro hmem
      exact dedupFirst_not_seen ys (y :: seen) y hmem (List.mem_cons_self y seen)

/-- The deduplicated list is a subsequence of the input: first-seen order
is preserved. -/
theorem dedupFirst_sublist :
    ∀ (l seen : List String), (dedupFirst seen l).Sublist l := by
  intro l
  induction l with
  | nil => intro seen; simp [dedupFirst]
  | cons y ys ih =>
    intro seen
    by_cases hy : y ∈ seen
    · simpa [dedupFirst, hy] using (ih seen).cons y
    · simpa [dedupFirst, hy] using (ih (y :: seen)).cons₂ y

/-- Every unseen input member survives deduplication. -/
theorem dedupFirst_mem :
    ∀ (l seen : List String) (x : String), x ∈ l → x ∉ seen → x ∈ dedupFirst seen l := by
  intro l
  induction l with
  | nil => intro seen x hx _; simp at hx
  | cons y ys ih =>
    intro seen x hx hns
    by_cases hxy : x = y
    · subst hxy
      by_cases hy : x ∈ seen
      · exact absurd hy hns
      · simp [dedupFirst, hy]
    · have hx' : x ∈ ys := by
        rcases List.mem_cons.mp hx with h | h
        · exact absurd h hxy
        · exact h
      by_cases hy : y ∈ seen
      · simp only [dedupFirst, hy, if_true]
        exact ih seen x hx' hns
      · simp only [dedupFirst, hy, if_false]
        refine List.mem_cons_of_mem y (ih (y :: seen) x hx' ?_)
        intro hmem
        rcases List.mem_cons.mp hmem with h | h
        · exact hxy h
        · exact hns h

/-- Occurrence inside the stripped string gives occurrence in the whole. -/
theorem containsSub_pyStrip_mono (n : List Char) (s : String)
    (h : containsSub n (pyStrip s).data = true) : containsSub n s.data = true := by
  obtain ⟨a, b, hs⟩ := pyStrip_part s
  exact containsSub_of_part n _ _ a b hs h

/-- Occurrence inside the head of a split gives occurrence in the whole. -/
theorem containsSub_splitHead_mono (n : List Char) (s needle : String)
    (h : containsSub n (splitHead s needle).data = true) : containsSub n s.data = true := by
  obtain ⟨t, ht⟩ := takeUntilSub_part needle.data s.data
  refine containsSub_of_part n _ _ [] t ?_ h
  simpa using ht

/-- The head of a split holds no occurrence of the separator. -/
theorem splitHead_no_needle (s needle : String) (hn : needle.data ≠ []) :
    containsSub needle.data (splitHead s needle).data = false :=
  containsSub_takeUntilSub needle.data hn s.data

/-- The package name cut out of a dependency line holds no version
specifier. -/
theorem package_clean (l : String) :
    containsSub "==".data
      (pyStrip (splitHead (splitHead (splitHead l "==") ">=") "<=")).data = false ∧
    containsSub ">=".data
      (pyStrip (splitHead (splitHead (splitHead l "==") ">=") "<=")).data = false ∧
    containsSub "<=".data
      (pyStrip (splitHead (splitHead (splitHead l "==") ">=") "<=")).data = false := by
  refine ⟨?_, ?_, ?_⟩
  · by_contra hc
    rw [Bool.not_eq_false] at hc
    have h3 := containsSub_pyStrip_mono _ _ hc
    have h2 := containsSub_splitHead_mono _ _ _ h3
    have h1 := containsSub_splitHead_mono _ _ _ h2
    have hfree := splitHead_no_needle l "==" (by decide)
    exact absurd (hfree.symm.trans h1) (by decide)
  · by_contra hc
    rw [Bool.not_eq_false] at hc
    have h3 := containsSub_pyStrip_mono _ _ hc
    have h2 := containsSub_splitHead_mono _ _ _ h3
    have hfree := splitHead_no_needle (splitHead l "==") ">=" (by decide)
    exact absurd (hfree.symm.trans h2) (by decide)
  · by_contra hc
    rw [Bool.not_eq_false] at hc
    have h3 := containsSub_pyStrip_mono _ _ hc
    have hfree := splitHead_no_needle (splitHead (splitHead l "==") ">=") "<=" (by decide)
    exact absurd (hfree.symm.trans h3) (by decide)

/-!  ## Claim C7 -/

/-- C7: the sanitization of the raw dependency lines drops empty lines and
lines with install phrasing, cuts version specifiers, replaces the package
name sklearn by scikit-learn, and deduplicates preserving first-seen
order. -/
theorem c7_sanitize_requirements (lines : List String) :
    (validRequirements lines).Nodup ∧
    (validRequirements lines).Sublist (lines.filterMap sanitizeLine) ∧
    (∀ x, x ∈ validRequirements lines ↔ x ∈ lines.filterMap sanitizeLine) ∧
    (∀ line, pyStrip line = "" → sanitizeLine line = Option.none) ∧
    (∀ line, (installPhrases.any
        (fun cmd => containsStr (pyLower (pyStrip line)) cmd)) = true →
      sanitizeLine line = Option.none) ∧
    (∀ line p, sanitizeLine line = some p →
      p ≠ "sklearn" ∧
      containsSub "==".data p.data = false ∧
      containsSub ">=".data p.data = false ∧
      containsSub "<=".data p.data = false ∧
      (pyStrip (splitHead (splitHead (splitHead (pyStrip line) "==") ">=") "<=") = "sklearn" →
        p = "scikit-learn")) := by
  refine ⟨dedupFirst_nodup _ [], dedupFirst_sublist _ [], ?_, ?_, ?_, ?_⟩
  · intro x
    constructor
    · intro hx
      exact (dedupFirst_sublist _ []).subset hx
    · intro hx
      exact dedupFirst_mem _ [] x hx (by simp)
  · intro line h
    simp [sanitizeLine, h]
  · intro line h
    simp [sanitizeLine, h]
  · intro line p h
    simp only [sanitizeLine] at h
    by_cases hcond : (!(pyStrip line == "")
        && !(installPhrases.any (fun cmd => containsStr (pyLower (pyStrip line)) cmd))) = true
    · rw [if_pos hcond] at h
      have hp := Option.some.inj h
      by_cases hs : (pyStrip (splitHead (splitHead (splitHead (pyStrip line) "==") ">=") "<=")
          == "sklearn") = true
      · rw [if_pos hs] at hp
        refine ⟨by rw [← hp]; decide, by rw [← hp]; decide, by rw [← hp]; decide,
          by rw [← hp]; decide, fun _ => hp.symm⟩
      · rw [if_neg hs] at hp
        obtain ⟨h1, h2, h3⟩ := package_clean (pyStrip line)
        refine ⟨?_, by rw [← hp]; exact h1, by rw [← hp]; exact h2, by rw [← hp]; exact h3, ?_⟩
        · rw [← hp]
          simpa using hs
        · intro hP
          exact absurd (by simp [hP] : (pyStrip (splitHead (splitHead
            (splitHead (pyStrip line) "==") ">=") "<=") == "sklearn") = true) hs
    · rw [if_neg hcond] at h
      exact absurd h (by simp)

/-- Witness for C7 at a concrete versioned dependency line. -/
theorem c7_witness :
    ("numpy" : String) ≠ "sklearn" ∧
    containsSub "==".data ("numpy" : String).data = false ∧
    containsSub ">=".data ("numpy" : String).data = false ∧
    containsSub "<=".data ("numpy" : String).data = false := by
  obtain ⟨h1, h2, h3, h4, _⟩ :=
    (c7_sanitize_requirements ["numpy==1.19"]).2.2.2.2.2 "numpy==1.19" "numpy" (by decide)
  exact ⟨h1, h2, h3, h4⟩

/-!  ## `generate_full_project_workflow` (C6, C10) -/

/-- The requirements file path of the workflow
(src/agents/code_agent.py line 882). -/
def wfReqPath (env : Env) : String :=
  env.dataDir ++ "/requirements_" ++ env.ts ++ ".txt"

/-- The bulk install command of the workflow
(src/agents/code_agent.py line 898). -/
def wfPipCmd (env : Env) : String :=
  "pip install -r " ++ wfReqPath env

/-- The script path of the workflow (src/agents/code_agent.py line 893). -/
def wfModelPath (env : Env) : String :=
  env.dataDir ++ "/model_" ++ env.ts ++ ".py"

/-- The script run command of the workflow
(src/agents/code_agent.py line 941). -/
def wfRunCmd (env : Env) : String :=
  "python " ++ wfModelPath env

/-- The retry loop of the workflow (src/agents/code_agent.py lines
899-923): `idx` numbers the subprocess call, `remaining` counts the
attempts still allowed after this one (`max_retries = 3` starts it at 2).
The loop stops at the first success; after the last allowed attempt the
last result is kept whatever its status.  `execute_command` never raises,
so the `except` arm of the source loop is unreachable. -/
def pipLoopAux (env : Env) (cmd : String) : Nat → Nat → PyVal × Nat
  | idx, 0 => (execute_command cmd 300 (env.runCmdAt idx), idx + 1)
  | idx, remaining + 1 =>
    let r := execute_command cmd 300 (env.runCmdAt idx)
    if statusIs r "success" then (r, idx + 1) else pipLoopAux env cmd (idx + 1) remaining

/-- The bulk install with up to 3 attempts; returns the final pip result
and the number of attempts made. -/
def pipInstall (env : Env) (cmd : String) : PyVal × Nat :=
  pipLoopAux env cmd 0 2

/-- `generate_full_project_workflow` (src/agents/code_agent.py lines
820-954): requirements generation and sanitization, script generation,
bulk install with retries, per-package fallback on failure, script run,
and an unconditional success dictionary.  A raised model call propagates
(`Except.error`): the workflow body has no `try`. -/
def generate_full_project_workflow (env : Env) (req : String) :
    Except String (PyVal × List Effect) :=
  match env.llm (LLMQuery.requirements req) with
  | Except.error e => Except.error e
  | Except.ok req_result =>
    let blocks0 := findBodies FencePat.optPython req_result
    let blocks := if blocks0.isEmpty then findBodies FencePat.plain req_result else blocks0
    let requirements0 := match blocks with
      | b :: _ => pyStrip b
      | [] => pyStrip req_result
    let valid := validRequirements (splitLines requirements0)
    let requirements := String.intercalate "\n" valid
    match env.llm (LLMQuery.modelCode req) with
    | Except.error e => Except.error e
    | Except.ok code_result =>
      let cblocks0 := findBodies FencePat.reqPython code_result
      let cblocks := if cblocks0.isEmpty then findBodies FencePat.plain code_result
        else cblocks0
      let model_code := match cblocks with
        | b :: _ => pyStrip b
        | [] => pyStrip code_result
      let pr := pipInstall env (wfPipCmd env)
      let fallbackCmds : List String :=
        if statusIs pr.1 "success" then []
        else (((splitLines requirements).map pyStrip).filter (fun p => !(p == ""))).map
          (fun p => "pip install " ++ p)
      let run_result := execute_command (wfRunCmd env) 180
        (env.runCmdAt (pr.2 + fallbackCmds.length))
      Except.ok
        (PyVal.pdict [("status", PyVal.str "success"),
          ("requirements_path", PyVal.str (wfReqPath env)),
          ("model_path", PyVal.str (wfModelPath env)),
          ("pip_stdout", PyVal.str (getStrD pr.1 "stdout")),
          ("pip_stderr", PyVal.str (getStrD pr.1 "stderr")),
          ("run_stdout", PyVal.str (getStrD run_result "stdout")),
          ("run_stderr", PyVal.str (getStrD run_result "stderr")),
          ("message", PyVal.str
            ("requirements.txt ve model.py oluşturuldu, pip install ve python çalıştırıldı.\n\nrequirements.txt: "
              ++ wfReqPath env ++ "\nmodel.py: " ++ wfModelPath env))],
         [Effect.llmCall (LLMQuery.requirements req),
          Effect.wroteFile (wfReqPath env) requirements,
          Effect.llmCall (LLMQuery.modelCode req),
          Effect.wroteFile (wfModelPath env) model_code]
           ++ List.replicate pr.2 (Effect.ranCommand (wfPipCmd env))
           ++ fallbackCmds.map Effect.ranCommand
           ++ [Effect.ranCommand (wfRunCmd env)])

/-!  ## Claim C6 -/

/-- The retry loop makes at most `remaining + 1` further attempts. -/
theorem pipLoopAux_le (env : Env) (cmd : String) :
    ∀ remaining idx, (pipLoopAux env cmd idx remaining).2 ≤ idx + remaining + 1 := by
  intro remaining
  induction remaining with
  | zero => intro idx; simp [pipLoopAux]
  | succ rem ih =>
    intro idx
    simp only [pipLoopAux]
    by_cases hs : statusIs (execute_command cmd 300 (env.runCmdAt idx)) "success" = true
    · simp only [hs, if_true]
      omega
    · have hs' : statusIs (execute_command cmd 300 (env.runCmdAt idx)) "success" = false := by
        simpa using hs
      simp only [hs', Bool.false_eq_true, if_false]
      have := ih (idx + 1)
      omega

/-- C6: the bulk install is attempted at most 3 times, stops at the first
success with that attempt's result, reaches 3 attempts whenever the final
result is a failure, and the workflow always goes on to run the script,
falling back to per-package installs only when the bulk install ended in
failure. -/
theorem c6_install_retry (env : Env) (cmd req : String) :
    (pipInstall env cmd).2 ≤ 3 ∧
    (∀ i, i < 3 →
      (∀ j, j < i → statusIs (execute_command cmd 300 (env.runCmdAt j)) "success" = false) →
      statusIs (execute_command cmd 300 (env.runCmdAt i)) "success" = true →
      pipInstall env cmd = (execute_command cmd 300 (env.runCmdAt i), i + 1)) ∧
    (statusIs (pipInstall env cmd).1 "success" = false → (pipInstall env cmd).2 = 3) ∧
    (∀ d tr, generate_full_project_workflow env req = Except.ok (d, tr) →
      ∃ pre fb, tr = pre
          ++ List.replicate (pipInstall env (wfPipCmd env)).2
            (Effect.ranCommand (wfPipCmd env))
          ++ fb
          ++ [Effect.ranCommand (wfRunCmd env)] ∧
        (statusIs (pipInstall env (wfPipCmd env)).1 "success" = true → fb = [])) := by
  refine ⟨?_, ?_, ?_, ?_⟩
  · have := pipLoopAux_le env cmd 2 0
    simpa [pipInstall] using this
  · intro i hi hprev hsucc
    have hi3 : i = 0 ∨ i = 1 ∨ i = 2 := by omega
    rcases hi3 with rfl | rfl | rfl
    · simp [pipInstall, pipLoopAux, hsucc]
    · have h0 := hprev 0 (by omega)
      simp [pipInstall, pipLoopAux, h0, hsucc]
    · have h0 := hprev 0 (by omega)
      have h1 := hprev 1 (by omega)
      simp [pipInstall, pipLoopAux, h0, h1]
  · intro hfail
    by_cases h0 : statusIs (execute_command cmd 300 (env.runCmdAt 0)) "success" = true
    · have hx := hfail
      simp only [pipInstall, pipLoopAux, h0, if_true] at hx
      exact absurd hx (by decide)
    · have h0' : statusIs (execute_command cmd 300 (env.runCmdAt 0)) "success" = false := by
        simpa using h0
      by_cases h1 : statusIs (execute_command cmd 300 (env.runCmdAt 1)) "success" = true
      · have hx := hfail
        simp only [pipInstall, pipLoopAux, h0', h1, Bool.false_eq_true, if_false, if_true] at hx
        exact absurd hx (by decide)
      · have h1' : statusIs (execute_command cmd 300 (env.runCmdAt 1)) "success" = false := by
          simpa using h1
        simp [pipInstall, pipLoopAux, h0', h1']
  · intro d tr h
    cases hr : env.llm (LLMQuery.requirements req) with
    | error e => simp [generate_full_project_workflow, hr] at h
    | ok req_result =>
      cases hc : env.llm (LLMQuery.modelCode req) with
      | error e => simp [generate_full_project_workflow, hr, hc] at h
      | ok code_result =>
        simp only [generate_full_project_workflow, hr, hc, Except.ok.injEq, Prod.mk.injEq] at h
        obtain ⟨_, htr⟩ := h
        refine ⟨_, _, htr.symm, ?_⟩
        intro hsucc
        simp [hsucc]

/-- The environment of the C6 witness: two failed install attempts, then a
success. -/
def c6Env : Env :=
  { testEnv with runCmdAt := fun i =>
      if i < 2 then ExecOutcome.completed 1 "" "boom"
      else ExecOutcome.completed 0 "installed" "" }

/-- Witness for C6: with two failures then one success, the loop makes
exactly 3 attempts and keeps the successful result. -/
theorem c6_witness :
    pipInstall c6Env "pip install -r reqs.txt" =
      (execute_command "pip install -r reqs.txt" 300 (c6Env.runCmdAt 2), 3) :=
  (c6_install_retry c6Env "pip install -r reqs.txt" "").2.1 2
    (by decide) (by decide) (by decide)

/-!  ## Claim C10 -/

/-- C10: whenever the workflow returns (neither model call raised), the
returned dictionary has status success, its keys are exactly the fixed
eight, and install or run failures surface only through the `pip_stderr`
and `run_stderr` (and matching stdout) fields. -/
theorem c10_workflow_always_success (env : Env) (req : String) (d : PyVal) (tr : List Effect)
    (h : generate_full_project_workflow env req = Except.ok (d, tr)) :
    d.get "status" = some (PyVal.str "success") ∧
    d.keys = ["status", "requirements_path", "model_path", "pip_stdout", "pip_stderr",
      "run_stdout", "run_stderr", "message"] ∧
    d.get "pip_stderr" = some (PyVal.str (getStrD (pipInstall env (wfPipCmd env)).1 "stderr")) ∧
    (∃ k, d.get "run_stderr" = some (PyVal.str
      (getStrD (execute_command (wfRunCmd env) 180 (env.runCmdAt k)) "stderr"))) := by
  cases hr : env.llm (LLMQuery.requirements req) with
  | error e => simp [generate_full_project_workflow, hr] at h
  | ok req_result =>
    cases hc : env.llm (LLMQuery.modelCode req) with
    | error e => simp [generate_full_project_workflow, hr, hc] at h
    | ok code_result =>
      simp only [generate_full_project_workflow, hr, hc, Except.ok.injEq, Prod.mk.injEq] at h
      obtain ⟨hd, _⟩ := h
      rw [← hd]
      refine ⟨rfl, rfl, rfl, ⟨_, rfl⟩⟩

/-- Witness for C10 at a concrete environment where every model call
answers and every command succeeds. -/
theorem c10_witness :
    ∃ d tr, generate_full_project_workflow testEnv "train a model" = Except.ok (d, tr) ∧
      d.get "status" = some (PyVal.str "success") :=
  ⟨_, _, rfl, (c10_workflow_always_success testEnv "train a model" _ _ rfl).1⟩

/-- C9 (amended): two saves with identical arguments but different
timestamps (the source's granularity of distinctness) always write
different paths; within one timestamp second the path is a function of the
arguments alone, as the counterexample shows. -/
theorem c9_amended (detect : String → Option String) (dataDir code : String)
    (language file_path description : Option String) (ts₁ ts₂ : String)
    (hne : ts₁ ≠ ts₂) :
    getStrD (save_code_to_file detect dataDir ts₁ code language file_path description)
        "file_path"
      ≠ getStrD (save_code_to_file detect dataDir ts₂ code language file_path description)
        "file_path" := by
  have hL : ∀ ts : String,
      getStrD (save_code_to_file detect dataDir ts code language file_path description)
        "file_path"
      = savePath dataDir ts (saveLang detect code language) file_path description :=
    fun ts => rfl
  rw [hL ts₁, hL ts₂]
  intro h
  apply hne
  apply String.ext
  have hd := congrArg String.data h
  cases file_path with
  | some fp =>
    simp only [savePath, String.data_append, List.append_assoc] at hd
    exact List.append_cancel_right (List.append_cancel_left (List.append_cancel_left hd))
  | none =>
    cases description with
    | some d =>
      simp only [savePath, String.data_append, List.append_assoc] at hd
      exact List.append_cancel_right (List.append_cancel_left (List.append_cancel_left
        (List.append_cancel_left (List.append_cancel_left hd))))
    | none =>
      simp only [savePath, String.data_append, List.append_assoc] at hd
      exact List.append_cancel_right (List.append_cancel_left (List.append_cancel_left
        (List.append_cancel_left hd)))

/-- Witness for C9 (amended) at two concrete distinct timestamps. -/
theorem c9_witness :
    getStrD (save_code_to_file (fun _ => Option.none) "data" "20250101_000001" "x"
        (some "python") Option.none Option.none) "file_path"
      ≠ getStrD (save_code_to_file (fun _ => Option.none) "data" "20250101_000002" "x"
        (some "python") Option.none Option.none) "file_path" :=
  c9_amended (fun _ => Option.none) "data" "x" (some "python") Option.none Option.none
    "20250101_000001" "20250101_000002" (by decide)
